import Mathlib

/-!
# dns-checker: the probing engine of `main.go`

A shallow embedding of `main`, `pinger` and `showStat`.

* Go `int` values (`errorCount`, `successCount`, `count`, the loop variable `i`) are
  mathematical integers: a counter only moves by `++`, once per interval tick, so the
  64-bit bound is out of reach and plays no part below.
* `float64` values are modelled by `F64`: NaN, the two infinities and the finite values,
  the latter carried as exact rationals (rounding is abstracted); the special cases of
  multiplication and division are those of IEEE 754.
* Library code (`time`, `fmt`, `strings`, `miekg/dns`, `fortio/stats`) is not part of the
  program; what the program uses from it is collected in the structure `Lib` and taken as
  a parameter. The fortio histogram is represented by the list of values passed to
  `Record`, oldest first.
* Standard output is the list of strings handed to `fmt.Println`, oldest first.
-/

namespace DnsChecker

/-! ## float64 -/

/-- Values of Go `float64`: finite values as exact rationals, NaN and the infinities. -/
inductive F64 where
  | nan : F64
  | posInf : F64
  | negInf : F64
  | fin (q : ℚ) : F64
  deriving DecidableEq

namespace F64

/-- Conversion `float64(n)` of an integer. -/
def ofInt (n : Int) : F64 := fin (n : ℚ)

/-- An infinity of the given sign (`true` is negative). -/
def inf (neg : Bool) : F64 := if neg then negInf else posInf

/-- IEEE 754 multiplication: NaN is absorbing, infinity times zero is NaN. -/
def mul : F64 → F64 → F64
  | nan, _ => nan
  | _, nan => nan
  | fin a, fin b => fin (a * b)
  | posInf, posInf => posInf
  | negInf, negInf => posInf
  | posInf, negInf => negInf
  | negInf, posInf => negInf
  | fin a, posInf => if a = 0 then nan else inf (decide (a < 0))
  | fin a, negInf => if a = 0 then nan else inf (decide (0 < a))
  | posInf, fin b => if b = 0 then nan else inf (decide (b < 0))
  | negInf, fin b => if b = 0 then nan else inf (decide (0 < b))

/-- IEEE 754 division: NaN is absorbing, `0/0` and `inf/inf` are NaN, a non-zero finite
value divided by zero is an infinity. Dividing never faults. -/
def div : F64 → F64 → F64
  | nan, _ => nan
  | _, nan => nan
  | fin a, fin b =>
      if b = 0 then (if a = 0 then nan else inf (decide (a < 0))) else fin (a / b)
  | fin _, posInf => fin 0
  | fin _, negInf => fin 0
  | posInf, fin b => inf (decide (b < 0))
  | negInf, fin b => inf (decide (0 ≤ b))
  | posInf, posInf => nan
  | posInf, negInf => nan
  | negInf, posInf => nan
  | negInf, negInf => nan

/-- A value that is a number: neither NaN nor an infinity. -/
def isFinite : F64 → Bool
  | fin _ => true
  | _ => false

end F64

/-! ## Library interface and flags -/

/-- What the program uses from its libraries. -/
structure Lib where
  /-- Text of a `time.Duration` under `%v`. -/
  durationString : Int → String
  /-- Method `time.Duration.Seconds`. -/
  Seconds : Int → F64
  /-- Lookup `dns.RcodeToString[rcode]` (the empty string for a missing key). -/
  RcodeToString : Int → String
  /-- Constant `dns.RcodeSuccess`. -/
  RcodeSuccess : Int
  /-- Lookup `dns.StringToType[key]`, `none` when the key is missing. -/
  StringToType : String → Option Nat
  /-- Function `strings.ToUpper`. -/
  ToUpper : String → String
  /-- Text of a string under `%q`. -/
  quoted : String → String
  /-- Values `Min`, `Avg`, `Max` of `Export()` on the histogram holding the given samples. -/
  Export : List F64 → F64 × F64 × F64

/-- The package-level flag variables. -/
structure Flags where
  name : String
  nameservers : List String
  queryType : String
  noRecursion : Bool
  onlyError : Bool
  timeout : Int
  interval : Int
  count : Int

/-! ## Shared state -/

/-- The state shared by all pingers: the two package-level counters, the histogram, the
standard output, and the log of `c.Exchange` calls (the nameserver of each call). -/
structure Stats where
  errorCount : Int
  successCount : Int
  statHistogram : List F64
  stdout : List String
  exchanges : List String
  deriving DecidableEq

/-- The state at program start. -/
def Stats.init : Stats :=
  { errorCount := 0, successCount := 0, statHistogram := [], stdout := [], exchanges := [] }

/-- The part of a `*dns.Msg` response the program reads: `Rcode`, and `Answer` as the
`String()` text of each record, in order. -/
structure Msg where
  Rcode : Int
  Answer : List String
  deriving DecidableEq

/-- The values returned by one `c.Exchange(m, ns)`, with the text of `time.Now()` at the
moment the result is printed. `err = none` is Go `nil`. -/
structure Exchange where
  res : Msg
  rtt : Int
  err : Option String
  now : String
  deriving DecidableEq

/-! ## pinger: one exchange -/

/-- The buffer printed when `err != nil`. -/
def failedBlock (lib : Lib) (ns : String) (x : Exchange) (e : String) : String :=
  x.now ++ "\n" ++ ("Nameserver: " ++ ns ++ "\n")
    ++ ("Exchange failed: " ++ e ++ " (rtt: " ++ lib.durationString x.rtt ++ ")\n")

/-- The buffer printed when `res.Rcode != dns.RcodeSuccess`. -/
def badRcodeBlock (lib : Lib) (ns : String) (x : Exchange) : String :=
  x.now ++ "\n" ++ ("Nameserver: " ++ ns ++ "\n")
    ++ ("Bad RCODE: " ++ lib.RcodeToString x.res.Rcode
          ++ " (rtt: " ++ lib.durationString x.rtt ++ ")\n")

/-- The buffer printed for a successful exchange: one line per answer record. -/
def answerBlock (ns : String) (x : Exchange) : String :=
  x.res.Answer.foldl (fun buf a => buf ++ (a ++ "\n"))
    (x.now ++ "\n" ++ ("Nameserver: " ++ ns ++ "\n"))

/-- Value `rttMS := 1000. * rtt.Seconds()`. -/
def rttMS (lib : Lib) (rtt : Int) : F64 := F64.mul (F64.fin 1000) (lib.Seconds rtt)

/-- The body of the `case <-ticker.C:` branch of `pinger`, for the exchange result `x`. -/
def attempt (lib : Lib) (fl : Flags) (ns : String) (x : Exchange) (st : Stats) : Stats :=
  let st := { st with exchanges := st.exchanges ++ [ns] }
  match x.err with
  | some e =>
      { st with stdout := st.stdout ++ [failedBlock lib ns x e],
                errorCount := st.errorCount + 1 }
  | none =>
      if x.res.Rcode ≠ lib.RcodeSuccess then
        { st with stdout := st.stdout ++ [badRcodeBlock lib ns x],
                  errorCount := st.errorCount + 1 }
      else
        let st := { st with statHistogram := st.statHistogram ++ [rttMS lib x.rtt],
                            successCount := st.successCount + 1 }
        if !fl.onlyError then
          { st with stdout := st.stdout ++ [answerBlock ns x] }
        else st

/-! ## pinger: the loop -/

/-- What the `select` of one iteration receives: `done` closed, or a tick followed by the
result of the exchange made in that branch. -/
inductive Event where
  | done : Event
  | tick (x : Exchange) : Event
  deriving DecidableEq

/-- The loop condition `count <= 0 || i <= count`. -/
def loopCond (fl : Flags) (i : Int) : Bool := decide (fl.count ≤ 0) || decide (i ≤ fl.count)

/-- One pass through the `for` statement of `pinger` with loop variable `i`: the condition,
then the `select`. `none` is leaving the function (condition false, or `done`); otherwise
the new loop variable and state. -/
def iteration (lib : Lib) (fl : Flags) (ns : String) (ev : Event) (i : Int) (st : Stats) :
    Option (Int × Stats) :=
  if loopCond fl i then
    match ev with
    | Event.done => none
    | Event.tick x => some (i + 1, attempt lib fl ns x st)
  else none

/-- How a run of `pinger` over a finite list of events ends. -/
inductive Status where
  | returned : Status
  | waiting : Status
  deriving DecidableEq

/-- Result of running `pinger`: the status, the shared state, and the events not
consumed. -/
structure Run where
  status : Status
  st : Stats
  rest : List Event
  deriving DecidableEq

/-- The `for` loop of `pinger` from loop variable `i`, fed the events its `select`
receives. With the events used up and the condition still true it is left blocked in the
`select` (`waiting`). -/
def pingerLoop (lib : Lib) (fl : Flags) (ns : String) : List Event → Int → Stats → Run
  | [], i, st =>
      if loopCond fl i then { status := Status.waiting, st := st, rest := [] }
      else { status := Status.returned, st := st, rest := [] }
  | ev :: evs, i, st =>
      if loopCond fl i then
        match ev with
        | Event.done => { status := Status.returned, st := st, rest := evs }
        | Event.tick x => pingerLoop lib fl ns evs (i + 1) (attempt lib fl ns x st)
      else { status := Status.returned, st := st, rest := ev :: evs }

/-- Function `pinger(ns, m, t, statHistogram, done)`: the loop started at `i := 1`. -/
def pinger (lib : Lib) (fl : Flags) (ns : String) (evs : List Event) (st : Stats) : Run :=
  pingerLoop lib fl ns evs 1 st

/-! ## main: validation and start of the workers -/

/-- How `main` gets past its start: `os.Exit(1)` after `pflag.Usage()`, `os.Exit(1)` after
the printed message, or the `pinger` calls handed to `g.Go` (the `ns` of each, in order),
with the query type `qt` put in the message. -/
inductive Startup where
  | usageExit : Startup
  | invalidTypeExit (msg : String) : Startup
  | started (qt : Nat) (workers : List String) : Startup
  deriving DecidableEq

/-- The loop `for _, nserver := range nameservers` of `main`: one `g.Go` per element. -/
def spawn (nameservers : List String) : List String :=
  nameservers.foldl (fun started nserver => started ++ [nserver]) []

/-- Function `main` up to and including the loop that starts the workers. -/
def mainStart (lib : Lib) (fl : Flags) : Startup :=
  if fl.name.utf8ByteSize == 0 || decide (fl.nameservers.length < 1) then Startup.usageExit
  else
    match lib.StringToType (lib.ToUpper fl.queryType) with
    | none => Startup.invalidTypeExit ("Invalid query type " ++ lib.quoted fl.queryType ++ "\n")
    | some qt => Startup.started qt (spawn fl.nameservers)

/-- The workers started by `main`: none when it exits first. -/
def Startup.workers : Startup → List String
  | Startup.started _ ws => ws
  | _ => []

/-- Whether `main` left through `os.Exit(1)`. -/
def Startup.exited : Startup → Bool
  | Startup.started _ _ => false
  | _ => true

/-! ## showStat -/

/-- The values `showStat` prints, before the formatting verbs are applied. -/
structure Report where
  name : String
  errorCount : Int
  plural : String
  errorPerc : F64
  successCount : Int
  successPerc : F64
  nameservers : Nat
  min : F64
  avg : F64
  max : F64
  deriving DecidableEq

/-- The divisor `float64(errorCount+successCount)` of both percentages. -/
def percDivisor (st : Stats) : F64 := F64.ofInt (st.errorCount + st.successCount)

/-- Value `100.*float64(errorCount)/float64(errorCount+successCount)`. -/
def errorPerc (st : Stats) : F64 :=
  F64.div (F64.mul (F64.fin 100) (F64.ofInt st.errorCount)) (percDivisor st)

/-- Value `100.*float64(successCount)/float64(errorCount+successCount)`. -/
def successPerc (st : Stats) : F64 :=
  F64.div (F64.mul (F64.fin 100) (F64.ofInt st.successCount)) (percDivisor st)

/-- Function `showStat`. -/
def showStat (lib : Lib) (fl : Flags) (st : Stats) : Report :=
  let plural := if st.errorCount = 1 then "" else "s"
  let res := lib.Export st.statHistogram
  { name := fl.name, errorCount := st.errorCount, plural := plural, errorPerc := errorPerc st,
    successCount := st.successCount, successPerc := successPerc st,
    nameservers := fl.nameservers.length, min := res.1, avg := res.2.1, max := res.2.2 }

/-! ## Several pingers on the shared state -/

/-- The pingers started by `main` and the state they share. Each pinger is its `ns` and its
loop variable, `none` once it has returned. `completed` counts the passes through the
ticker branch. -/
structure System where
  loops : List (String × Option Int)
  st : Stats
  completed : Nat
  deriving DecidableEq

/-- The system right after `main` has started one pinger per worker. -/
def System.start (workers : List String) (st : Stats) : System :=
  { loops := workers.map (fun ns => (ns, some 1)), st := st, completed := 0 }

/-- Pinger number `k` makes one pass through its loop, its `select` receiving `ev`. A
pinger that has returned, or an index out of range, leaves the system as it is. -/
def System.deliver (lib : Lib) (fl : Flags) (k : Nat) (ev : Event) (sys : System) : System :=
  match sys.loops[k]? with
  | some (ns, some i) =>
      match iteration lib fl ns ev i sys.st with
      | none => { sys with loops := sys.loops.set k (ns, none) }
      | some (i', st') =>
          { loops := sys.loops.set k (ns, some i'), st := st', completed := sys.completed + 1 }
  | _ => sys

/-- A sequential order of the pingers' passes: which pinger, and what its `select` gets. -/
def System.run (lib : Lib) (fl : Flags) (sched : List (Nat × Event)) (sys : System) : System :=
  sched.foldl (fun s p => System.deliver lib fl p.1 p.2 s) sys

/-! ## The select statement -/

/-- The two channels of the `select` in `pinger`, as the statement finds them: `done`
closed or not, a tick buffered in `ticker.C` or not. -/
structure Chans where
  doneClosed : Bool
  tickPending : Bool
  deriving DecidableEq

/-- The cases of the `select` that can proceed, by the Go rule: a receive from a closed
channel can proceed, a receive from `ticker.C` can proceed when a tick is buffered. When
several can proceed one of them is chosen by the runtime; when none can the statement
blocks. -/
def selectReady (ch : Chans) : List Bool :=
  (if ch.doneClosed then [true] else []) ++ (if ch.tickPending then [false] else [])

/-- The case an event stands for: `true` for `case <-done`. -/
def Event.isDone : Event → Bool
  | Event.done => true
  | Event.tick _ => false

/-- Whether the `select` may hand `ev` to the loop with the channels as in `ch`. -/
def selectMay (ch : Chans) (ev : Event) : Bool := (selectReady ch).contains ev.isDone

/-! ## The increments of the shared counters, step by step -/

/-- Whether an exchange is a success for `pinger`: `err == nil` and
`res.Rcode == dns.RcodeSuccess`. -/
def Exchange.ok (lib : Lib) (x : Exchange) : Bool :=
  x.err.isNone && decide (x.res.Rcode = lib.RcodeSuccess)

/-- A pinger goroutine seen at the grain of single reads and writes of the shared
variables: the attempts it still has to make (`true` for a successful exchange), how many
steps of the current attempt it has made, and the counter value it has read. -/
structure Thread where
  todo : List Bool
  pc : Nat
  reg : Int
  deriving DecidableEq

/-- The shared variables and the goroutines. `records` is the sample count held by
`statHistogram`. -/
structure Shared where
  errorCount : Int
  successCount : Int
  records : Int
  threads : List Thread
  deriving DecidableEq

/-- Goroutine `k` makes its next step. The statements `errorCount++` and `successCount++`
are plain Go increments, with no lock and no atomic operation: a read of the variable,
then a write of the value read plus one. The call `statHistogram.Record(rttMS)` is made
with no lock around it either; of what it does only the update of the sample count is
followed, likewise as a read and a write. A failed attempt is the two steps of
`errorCount++`; a successful one is the two steps of `Record`, then the two steps of
`successCount++`. -/
def microStep (k : Nat) (sh : Shared) : Shared :=
  match sh.threads[k]? with
  | none => sh
  | some t =>
      match t.todo with
      | [] => sh
      | false :: rest =>
          if t.pc = 0 then
            { sh with threads := sh.threads.set k { t with pc := 1, reg := sh.errorCount } }
          else
            { sh with errorCount := t.reg + 1,
                      threads := sh.threads.set k { todo := rest, pc := 0, reg := t.reg } }
      | true :: rest =>
          if t.pc = 0 then
            { sh with threads := sh.threads.set k { t with pc := 1, reg := sh.records } }
          else if t.pc = 1 then
            { sh with records := t.reg + 1,
                      threads := sh.threads.set k { t with pc := 2 } }
          else if t.pc = 2 then
            { sh with threads := sh.threads.set k { t with pc := 3, reg := sh.successCount } }
          else
            { sh with successCount := t.reg + 1,
                      threads := sh.threads.set k { todo := rest, pc := 0, reg := t.reg } }

/-- The goroutines at start: goroutine `k` will get the exchange results `work[k]`. -/
def Shared.start (lib : Lib) (work : List (List Exchange)) : Shared :=
  { errorCount := 0, successCount := 0, records := 0,
    threads := work.map (fun xs => { todo := xs.map (Exchange.ok lib), pc := 0, reg := 0 }) }

/-- An arbitrary interleaving: the goroutine that makes each step. -/
def runSteps (sched : List Nat) (sh : Shared) : Shared :=
  sched.foldl (fun s k => microStep k s) sh

/-- Goroutine `k` is inside an attempt. -/
def midAttempt (k : Nat) (sh : Shared) : Bool :=
  match sh.threads[k]? with
  | some t => t.pc != 0
  | none => false

/-- Goroutine `k` makes its next attempt with no step of another goroutine in between. -/
def wholeAttempt (k : Nat) (sh : Shared) : Shared :=
  let s1 := microStep k sh
  if midAttempt k s1 then
    let s2 := microStep k s1
    if midAttempt k s2 then
      let s3 := microStep k s2
      if midAttempt k s3 then microStep k s3 else s3
    else s2
  else s1

/-- An interleaving of whole attempts: the goroutine that makes each attempt. -/
def runAttempts (sched : List Nat) (sh : Shared) : Shared :=
  sched.foldl (fun s k => wholeAttempt k s) sh

/-- The attempts not yet completed, over all goroutines. -/
def Shared.remaining (sh : Shared) : Nat := (sh.threads.map (fun t => t.todo.length)).sum

/-- The attempts not yet completed whose exchange succeeds (`true`) or fails (`false`). -/
def Shared.remainingOf (b : Bool) (sh : Shared) : Nat :=
  (sh.threads.map (fun t => t.todo.count b)).sum

/-- Every goroutine has completed all its attempts. -/
def Shared.joined (sh : Shared) : Bool := sh.threads.all (fun t => t.todo.isEmpty)

/-! ## The shutdown signal -/

/-- The channels and the goroutine set up by `main` for shutdown: the number of signals
buffered in `interrupt` (capacity 1), whether the goroutine is still at `<-interrupt`,
whether `done` is closed, how many times `close(done)` has run, and whether a
`close` of the closed channel has panicked. -/
structure Coord where
  buffered : Nat
  listening : Bool
  doneClosed : Bool
  closes : Nat
  panicked : Bool
  deriving DecidableEq

/-- The state after `main` has made the channels and started the goroutine. -/
def Coord.init : Coord :=
  { buffered := 0, listening := true, doneClosed := false, closes := 0, panicked := false }

/-- What can happen to the shutdown machinery: the operating system delivers an interrupt
to the process, or the goroutine `go func(done chan int)` gets to run. -/
inductive Sig where
  | interrupt : Sig
  | listener : Sig
  deriving DecidableEq

/-- One occurrence. The `signal` package sends to `interrupt` without blocking, so a signal
that finds the buffer full is dropped. The goroutine, once it has received, runs
`close(done)` and ends. -/
def Coord.step (c : Coord) : Sig → Coord
  | Sig.interrupt => if c.buffered < 1 then { c with buffered := c.buffered + 1 } else c
  | Sig.listener =>
      if c.listening && decide (0 < c.buffered) then
        { buffered := c.buffered - 1, listening := false, doneClosed := true,
          closes := c.closes + 1, panicked := c.panicked || c.doneClosed }
      else c

/-- A sequence of occurrences, oldest first. -/
def Coord.run (sigs : List Sig) (c : Coord) : Coord := sigs.foldl Coord.step c

/-- The occurrences with every interrupt after the first one removed. -/
def firstInterruptOnly : List Sig → List Sig
  | [] => []
  | Sig.interrupt :: rest => Sig.interrupt :: rest.filter (fun s => s != Sig.interrupt)
  | Sig.listener :: rest => Sig.listener :: firstInterruptOnly rest

/-- The shutdown signal as the pingers see it, with the bookkeeping of `close`. -/
def Coord.signal (c : Coord) : Bool × Nat × Bool := (c.doneClosed, c.closes, c.panicked)

/-! ## Reference descriptions of a run of ticks -/

/-- The exchanges `xs` handled one after the other by the pinger of `ns`. -/
def attempts (lib : Lib) (fl : Flags) (ns : String) (xs : List Exchange) (st : Stats) : Stats :=
  xs.foldl (fun s x => attempt lib fl ns x s) st

/-- The latencies of the successful exchanges among `xs`, in order: for each exchange
that returned no error and `RcodeSuccess`, 1000 times its round-trip time in seconds. -/
def successSamples (lib : Lib) (xs : List Exchange) : List F64 :=
  (xs.filter (fun x => x.err.isNone && decide (x.res.Rcode = lib.RcodeSuccess))).map
    (fun x => F64.mul (F64.fin 1000) (lib.Seconds x.rtt))

/-- The number of exchanges in the work of all goroutines that succeed (`b = true`: no
error and `RcodeSuccess`) or fail (`b = false`). -/
def outcomesOf (lib : Lib) (b : Bool) (work : List (List Exchange)) : Nat :=
  (work.map (fun xs =>
    (xs.filter (fun x =>
      (x.err.isNone && decide (x.res.Rcode = lib.RcodeSuccess)) == b)).length)).sum

/-! ## Invariants and relations used in the proofs -/

/-- The counters, the histogram and the exchange log agree with the completed attempts. -/
def System.Consistent (sys : System) : Prop :=
  sys.st.errorCount + sys.st.successCount = sys.completed ∧
  (sys.st.statHistogram.length : Int) = sys.st.successCount ∧
  sys.st.exchanges.length = sys.completed

/-- The three conditions under which `main` gets to start its workers. -/
def validConfig (lib : Lib) (fl : Flags) : Prop :=
  fl.name ≠ "" ∧ fl.nameservers ≠ [] ∧
    (lib.StringToType (lib.ToUpper fl.queryType)).isSome = true

/-- Two shared states with the same totals, the output of the first being part of the
output of the second. -/
def Stats.sameTotals (a b : Stats) : Prop :=
  a.errorCount = b.errorCount ∧ a.successCount = b.successCount ∧
    a.statHistogram = b.statHistogram ∧ a.exchanges = b.exchanges ∧
    a.stdout.Sublist b.stdout

/-- Two systems with the same pingers and completed attempts, and the same totals. -/
def System.sameTotals (s t : System) : Prop :=
  s.loops = t.loops ∧ s.completed = t.completed ∧ s.st.sameTotals t.st

/-- Between whole attempts: no goroutine is inside an attempt, every failed attempt made
has been counted once in `errorCount`, every successful one once in `successCount` and
once in the histogram. -/
def Shared.Settled (sh : Shared) (total nOk nFail : Nat) : Prop :=
  (∀ t ∈ sh.threads, t.pc = 0) ∧
    sh.errorCount + sh.successCount + (sh.remaining : Int) = (total : Int) ∧
    sh.successCount + (sh.remainingOf true : Int) = (nOk : Int) ∧
    sh.errorCount + (sh.remainingOf false : Int) = (nFail : Int) ∧
    sh.records = sh.successCount

/-- What holds of the shutdown machinery at every moment: while the goroutine is at
`<-interrupt`, `done` is open and `close` has not run; once it has received, `done` is
closed and `close` has run once; no panic has occurred. -/
def Coord.Sound (c : Coord) : Prop :=
  c.panicked = false ∧ c.buffered ≤ 1 ∧
    (c.listening = true → c.doneClosed = false ∧ c.closes = 0) ∧
    (c.listening = false → c.doneClosed = true ∧ c.closes = 1)

/-- Whether the goroutine got to run at some moment after an interrupt. -/
def listenerRanAfterInterrupt : List Sig → Bool
  | [] => false
  | Sig.interrupt :: rest => rest.contains Sig.listener
  | Sig.listener :: rest => listenerRanAfterInterrupt rest

/-- Two states of the machinery that agree on the shutdown signal and on the goroutine,
and, while the goroutine waits, hold the same full buffer. -/
def Coord.Agree (a b : Coord) : Prop :=
  a.signal = b.signal ∧ a.listening = b.listening ∧
    (a.listening = true → a.buffered = b.buffered ∧ 1 ≤ a.buffered)

/-! ## Sample values -/

/-- A small instance of the library interface, for evaluating the definitions. -/
def sampleLib : Lib :=
  { durationString := fun d => toString d ++ "ns",
    Seconds := fun d => F64.div (F64.ofInt d) (F64.fin 1000000000),
    RcodeToString := fun r => if r = 2 then "SERVFAIL" else if r = 3 then "NXDOMAIN" else "",
    RcodeSuccess := 0,
    StringToType := fun s =>
      if s = "A" then some 1 else if s = "NS" then some 2 else if s = "SOA" then some 6
      else if s = "AAAA" then some 28 else none,
    ToUpper := fun s => String.mk (s.data.map Char.toUpper),
    quoted := String.quote,
    Export := fun _ => (F64.fin 0, F64.fin 0, F64.fin 0) }

/-- Flags for `example.org.` against three nameservers, five requests each. -/
def sampleFlags : Flags :=
  { name := "example.org.", nameservers := ["10.0.0.1:53", "10.0.0.2:53", "10.0.0.3:53"],
    queryType := "a", noRecursion := false, onlyError := false, timeout := 2000000000,
    interval := 100000000, count := 5 }

/-- An exchange answered with `RcodeSuccess` and two records after 3 ms. -/
def okExchange : Exchange :=
  { res := { Rcode := 0, Answer := ["example.org. 60 IN A 192.0.2.1", "example.org. 60 IN A 192.0.2.2"] },
    rtt := 3000000, err := none, now := "t1" }

/-- An exchange that timed out. -/
def timeoutExchange : Exchange :=
  { res := { Rcode := 0, Answer := [] }, rtt := 2000000000, err := some "i/o timeout", now := "t2" }

/-- An exchange answered with SERVFAIL. -/
def servfailExchange : Exchange :=
  { res := { Rcode := 2, Answer := [] }, rtt := 1000000, err := none, now := "t3" }

/-! ## Lemmas on one exchange -/

theorem attempt_of_err (lib : Lib) (fl : Flags) (ns : String) (x : Exchange) (st : Stats)
    (e : String) (h : x.err = some e) :
    attempt lib fl ns x st =
      { st with exchanges := st.exchanges ++ [ns],
                stdout := st.stdout ++ [failedBlock lib ns x e],
                errorCount := st.errorCount + 1 } := by
  simp [attempt, h]

theorem attempt_of_badRcode (lib : Lib) (fl : Flags) (ns : String) (x : Exchange) (st : Stats)
    (h : x.err = none) (hr : x.res.Rcode ≠ lib.RcodeSuccess) :
    attempt lib fl ns x st =
      { st with exchanges := st.exchanges ++ [ns],
                stdout := st.stdout ++ [badRcodeBlock lib ns x],
                errorCount := st.errorCount + 1 } := by
  simp [attempt, h, hr]

theorem attempt_of_success (lib : Lib) (fl : Flags) (ns : String) (x : Exchange) (st : Stats)
    (h : x.err = none) (hr : x.res.Rcode = lib.RcodeSuccess) :
    attempt lib fl ns x st =
      { st with exchanges := st.exchanges ++ [ns],
                statHistogram := st.statHistogram ++ [rttMS lib x.rtt],
                successCount := st.successCount + 1,
                stdout := if fl.onlyError then st.stdout else st.stdout ++ [answerBlock ns x] } := by
  cases hb : fl.onlyError <;> simp [attempt, h, hr, hb]

/-- The three cases of `attempt`, by the success test. -/
theorem attempt_cases (lib : Lib) (x : Exchange) :
    (∃ e, x.err = some e) ∨ (x.err = none ∧ x.res.Rcode ≠ lib.RcodeSuccess) ∨
      (x.err = none ∧ x.res.Rcode = lib.RcodeSuccess) := by
  cases h : x.err with
  | some e => exact Or.inl ⟨e, rfl⟩
  | none =>
      by_cases hr : x.res.Rcode = lib.RcodeSuccess
      · exact Or.inr (Or.inr ⟨rfl, hr⟩)
      · exact Or.inr (Or.inl ⟨rfl, hr⟩)

theorem attempt_exchanges (lib : Lib) (fl : Flags) (ns : String) (x : Exchange) (st : Stats) :
    (attempt lib fl ns x st).exchanges = st.exchanges ++ [ns] := by
  rcases attempt_cases lib x with ⟨e, h⟩ | ⟨h, hr⟩ | ⟨h, hr⟩
  · rw [attempt_of_err lib fl ns x st e h]
  · rw [attempt_of_badRcode lib fl ns x st h hr]
  · rw [attempt_of_success lib fl ns x st h hr]

/-- One exchange moves exactly one counter, by one, and the histogram with `successCount`. -/
theorem attempt_counts (lib : Lib) (fl : Flags) (ns : String) (x : Exchange) (st : Stats) :
    ((attempt lib fl ns x st).errorCount = st.errorCount + 1 ∧
      (attempt lib fl ns x st).successCount = st.successCount ∧
      (attempt lib fl ns x st).statHistogram = st.statHistogram) ∨
    ((attempt lib fl ns x st).errorCount = st.errorCount ∧
      (attempt lib fl ns x st).successCount = st.successCount + 1 ∧
      (attempt lib fl ns x st).statHistogram = st.statHistogram ++ [rttMS lib x.rtt]) := by
  rcases attempt_cases lib x with ⟨e, h⟩ | ⟨h, hr⟩ | ⟨h, hr⟩
  · rw [attempt_of_err lib fl ns x st e h]; exact Or.inl ⟨rfl, rfl, rfl⟩
  · rw [attempt_of_badRcode lib fl ns x st h hr]; exact Or.inl ⟨rfl, rfl, rfl⟩
  · rw [attempt_of_success lib fl ns x st h hr]; exact Or.inr ⟨rfl, rfl, rfl⟩

/-! ## Lemmas on several pingers -/

theorem System.start_consistent (workers : List String) :
    (System.start workers Stats.init).Consistent := by
  simp [System.Consistent, System.start, Stats.init]

theorem System.deliver_consistent (lib : Lib) (fl : Flags) (k : Nat) (ev : Event)
    (sys : System) (h : sys.Consistent) : (System.deliver lib fl k ev sys).Consistent := by
  unfold System.deliver
  split
  · rename_i ns i _
    unfold iteration
    by_cases hc : loopCond fl i = true
    · cases ev with
      | done => simpa [hc] using h
      | tick x =>
          simp only [hc, if_true]
          obtain ⟨h1, h2, h3⟩ := h
          refine ⟨?_, ?_, ?_⟩
          · rcases attempt_counts lib fl ns x sys.st with ⟨a, b, _⟩ | ⟨a, b, _⟩
            · simp only [a, b]; push_cast; omega
            · simp only [a, b]; push_cast; omega
          · rcases attempt_counts lib fl ns x sys.st with ⟨_, b, c⟩ | ⟨_, b, c⟩
            · simp only [b, c]; exact h2
            · simp only [b, c, List.length_append, List.length_singleton]; push_cast; omega
          · simp only [attempt_exchanges, List.length_append, List.length_singleton]; omega
    · simpa [hc] using h
  · exact h

theorem System.run_consistent (lib : Lib) (fl : Flags) (sched : List (Nat × Event)) :
    ∀ sys : System, sys.Consistent → (System.run lib fl sched sys).Consistent := by
  induction sched with
  | nil => intro sys h; exact h
  | cons p rest ih =>
      intro sys h
      exact ih _ (System.deliver_consistent lib fl p.1 p.2 sys h)

/-! ## C1, C3 -/

/-- C1: for every sequential order of the passes of any number of pingers, started with
both counters at zero, `errorCount + successCount` equals the number of completed attempts
(which is also the number of `Exchange` calls), at every point and so after all loops have
returned; and each attempt adds one to exactly one of the two counters. -/
theorem C1_counters_sum_completed (lib : Lib) (fl : Flags) (workers : List String)
    (sched : List (Nat × Event)) :
    (System.run lib fl sched (System.start workers Stats.init)).st.errorCount
        + (System.run lib fl sched (System.start workers Stats.init)).st.successCount
      = ((System.run lib fl sched (System.start workers Stats.init)).completed : Int) ∧
    (System.run lib fl sched (System.start workers Stats.init)).st.exchanges.length
      = (System.run lib fl sched (System.start workers Stats.init)).completed ∧
    (∀ (ns : String) (x : Exchange) (st : Stats),
      ((attempt lib fl ns x st).errorCount = st.errorCount + 1 ∧
          (attempt lib fl ns x st).successCount = st.successCount) ∨
      ((attempt lib fl ns x st).errorCount = st.errorCount ∧
          (attempt lib fl ns x st).successCount = st.successCount + 1)) := by
  have h := System.run_consistent lib fl sched _ (System.start_consistent workers)
  refine ⟨h.1, h.2.2, ?_⟩
  intro ns x st
  rcases attempt_counts lib fl ns x st with ⟨a, b, _⟩ | ⟨a, b, _⟩
  · exact Or.inl ⟨a, b⟩
  · exact Or.inr ⟨a, b⟩

/-- Appending to the left of a joined list of strings. -/
theorem foldl_append_start (l : List String) :
    ∀ a b : String, l.foldl (fun r s => r ++ s) (a ++ b) = a ++ l.foldl (fun r s => r ++ s) b := by
  induction l with
  | nil => intro a b; rfl
  | cons s rest ih =>
      intro a b
      simp only [List.foldl_cons]
      rw [String.append_assoc]
      exact ih a (b ++ s)

/-- The buffer of a successful exchange is the two header lines followed by the answer
records, one per line, in the order of `res.Answer`. -/
theorem answerBlock_eq (ns : String) (x : Exchange) :
    answerBlock ns x
      = x.now ++ "\n" ++ ("Nameserver: " ++ ns ++ "\n")
          ++ String.join (x.res.Answer.map (fun a => a ++ "\n")) := by
  unfold answerBlock String.join
  have h := foldl_append_start (x.res.Answer.map (fun a => a ++ "\n"))
    (x.now ++ "\n" ++ ("Nameserver: " ++ ns ++ "\n")) ""
  rw [List.foldl_map, String.append_empty] at h
  exact h

/-- C3: the output of one exchange handled by `pinger`, for either value of the only-errors
flag. A failed attempt (transport error, or an Rcode other than `RcodeSuccess`) prints
exactly one block: the time, the nameserver address, and the failure reason with the
elapsed time. A successful attempt prints exactly one block when only-errors is false (the
time, the nameserver address, then the text of each answer record in the order of the
response) and prints nothing when only-errors is true. -/
theorem C3_attempt_output (lib : Lib) (fl : Flags) (ns : String) (x : Exchange) (st : Stats) :
    (∀ e, x.err = some e →
      (attempt lib fl ns x st).stdout
        = st.stdout ++ [x.now ++ "\n" ++ ("Nameserver: " ++ ns ++ "\n")
            ++ ("Exchange failed: " ++ e ++ " (rtt: " ++ lib.durationString x.rtt ++ ")\n")]) ∧
    (x.err = none → x.res.Rcode ≠ lib.RcodeSuccess →
      (attempt lib fl ns x st).stdout
        = st.stdout ++ [x.now ++ "\n" ++ ("Nameserver: " ++ ns ++ "\n")
            ++ ("Bad RCODE: " ++ lib.RcodeToString x.res.Rcode
                  ++ " (rtt: " ++ lib.durationString x.rtt ++ ")\n")]) ∧
    (x.err = none → x.res.Rcode = lib.RcodeSuccess → fl.onlyError = false →
      (attempt lib fl ns x st).stdout
        = st.stdout ++ [x.now ++ "\n" ++ ("Nameserver: " ++ ns ++ "\n")
            ++ String.join (x.res.Answer.map (fun a => a ++ "\n"))]) ∧
    (x.err = none → x.res.Rcode = lib.RcodeSuccess → fl.onlyError = true →
      (attempt lib fl ns x st).stdout = st.stdout) := by
  refine ⟨?_, ?_, ?_, ?_⟩
  · intro e h
    rw [attempt_of_err lib fl ns x st e h]; rfl
  · intro h hr
    rw [attempt_of_badRcode lib fl ns x st h hr]; rfl
  · intro h hr hb
    rw [attempt_of_success lib fl ns x st h hr, ← answerBlock_eq]; simp [hb]
  · intro h hr hb
    rw [attempt_of_success lib fl ns x st h hr]; simp [hb]

/-- C3 at sample values: the block of a timeout, and the silence of a good answer under
only-errors. -/
theorem C3_attempt_output_witness :
    (attempt sampleLib sampleFlags "10.0.0.1:53" timeoutExchange Stats.init).stdout
      = ["t2\nNameserver: 10.0.0.1:53\nExchange failed: i/o timeout (rtt: 2000000000ns)\n"] ∧
    (attempt sampleLib { sampleFlags with onlyError := true } "10.0.0.1:53" okExchange
      Stats.init).stdout = [] :=
  ⟨by
    have h := (C3_attempt_output sampleLib sampleFlags "10.0.0.1:53" timeoutExchange
      Stats.init).1 "i/o timeout" rfl
    rw [h]; decide,
   (C3_attempt_output sampleLib { sampleFlags with onlyError := true } "10.0.0.1:53" okExchange
      Stats.init).2.2.2 rfl rfl rfl⟩

/-! ## Lemmas on the loop -/

theorem attempts_exchanges (lib : Lib) (fl : Flags) (ns : String) (xs : List Exchange) :
    ∀ st : Stats,
      (attempts lib fl ns xs st).exchanges = st.exchanges ++ List.replicate xs.length ns := by
  induction xs with
  | nil => intro st; simp [attempts]
  | cons x rest ih =>
      intro st
      have h := ih (attempt lib fl ns x st)
      simp only [attempts, List.foldl_cons] at h ⊢
      rw [h, attempt_exchanges, List.length_cons, List.replicate_succ, List.append_assoc]
      rfl

theorem attempt_statHistogram (lib : Lib) (fl : Flags) (ns : String) (x : Exchange)
    (st : Stats) :
    (attempt lib fl ns x st).statHistogram = st.statHistogram ++ successSamples lib [x] := by
  rcases attempt_cases lib x with ⟨e, h⟩ | ⟨h, hr⟩ | ⟨h, hr⟩
  · rw [attempt_of_err lib fl ns x st e h]; simp [successSamples, h]
  · rw [attempt_of_badRcode lib fl ns x st h hr]; simp [successSamples, h, hr]
  · rw [attempt_of_success lib fl ns x st h hr]; simp [successSamples, rttMS, h, hr]

theorem successSamples_cons (lib : Lib) (x : Exchange) (xs : List Exchange) :
    successSamples lib (x :: xs) = successSamples lib [x] ++ successSamples lib xs := by
  unfold successSamples
  rw [← List.map_append, ← List.filter_append]
  rfl

theorem attempts_statHistogram (lib : Lib) (fl : Flags) (ns : String) (xs : List Exchange) :
    ∀ st : Stats,
      (attempts lib fl ns xs st).statHistogram = st.statHistogram ++ successSamples lib xs := by
  induction xs with
  | nil => intro st; simp [attempts, successSamples]
  | cons x rest ih =>
      intro st
      have h := ih (attempt lib fl ns x st)
      simp only [attempts, List.foldl_cons] at h ⊢
      rw [h, attempt_statHistogram, List.append_assoc, ← successSamples_cons]

/-- With no budget the loop handles every tick it is given and stays in its `select`. -/
theorem pingerLoop_unbounded (lib : Lib) (fl : Flags) (ns : String) (hc : fl.count ≤ 0)
    (xs : List Exchange) :
    ∀ (i : Int) (st : Stats),
      pingerLoop lib fl ns (xs.map Event.tick) i st
        = { status := Status.waiting, st := attempts lib fl ns xs st, rest := [] } := by
  have hcond : ∀ i, loopCond fl i = true := by intro i; simp [loopCond, hc]
  induction xs with
  | nil => intro i st; simp [pingerLoop, hcond, attempts]
  | cons x rest ih =>
      intro i st
      simp only [List.map_cons, pingerLoop, hcond, if_true]
      rw [ih]
      rfl

/-- With a budget, short of ticks: the loop handles them all and stays in its `select`. -/
theorem pingerLoop_short (lib : Lib) (fl : Flags) (ns : String) (xs : List Exchange) :
    ∀ (i : Int) (st : Stats), i + xs.length ≤ fl.count →
      pingerLoop lib fl ns (xs.map Event.tick) i st
        = { status := Status.waiting, st := attempts lib fl ns xs st, rest := [] } := by
  induction xs with
  | nil =>
      intro i st h
      have : loopCond fl i = true := by
        simp only [List.length_nil, Nat.cast_zero, add_zero] at h
        simp [loopCond, h]
      simp [pingerLoop, this, attempts]
  | cons x rest ih =>
      intro i st h
      simp only [List.length_cons, Nat.cast_add, Nat.cast_one] at h
      have hi : loopCond fl i = true := by
        have : i ≤ fl.count := by omega
        simp [loopCond, this]
      simp only [List.map_cons, pingerLoop, hi, if_true]
      rw [ih (i + 1) _ (by omega)]
      rfl

/-- With a budget and enough ticks: the loop handles the ticks left in the budget and
returns, leaving the others. -/
theorem pingerLoop_budget (lib : Lib) (fl : Flags) (ns : String) (hc : 0 < fl.count)
    (xs : List Exchange) :
    ∀ (i : Int) (st : Stats) (r : Nat), i + r = fl.count + 1 → r ≤ xs.length →
      pingerLoop lib fl ns (xs.map Event.tick) i st
        = { status := Status.returned, st := attempts lib fl ns (xs.take r) st,
            rest := (xs.drop r).map Event.tick } := by
  induction xs with
  | nil =>
      intro i st r hr hlen
      have hr0 : r = 0 := by simpa using hlen
      subst hr0
      have : loopCond fl i = false := by
        have h1 : ¬ fl.count ≤ 0 := by omega
        have h2 : ¬ i ≤ fl.count := by omega
        simp [loopCond, h1, h2]
      simp [pingerLoop, this, attempts]
  | cons x rest ih =>
      intro i st r hr hlen
      cases r with
      | zero =>
          have : loopCond fl i = false := by
            have h1 : ¬ fl.count ≤ 0 := by omega
            have h2 : ¬ i ≤ fl.count := by omega
            simp [loopCond, h1, h2]
          simp [pingerLoop, this, attempts]
      | succ r =>
          have hi : loopCond fl i = true := by
            have : i ≤ fl.count := by push_cast at hr; omega
            simp [loopCond, this]
          simp only [List.map_cons, pingerLoop, hi, if_true]
          rw [ih (i + 1) _ r (by push_cast at hr; omega) (by simpa using hlen)]
          rfl

/-! ## C4 -/

/-- C4: a pinger whose shutdown signal never fires, given the exchange results `xs` of its
ticks. With a budget `count > 0` and at least `count` ticks it makes exactly `count`
exchanges, whatever their results, and returns, leaving the later ticks untouched; the
histogram has gained exactly the latencies of the successful exchanges among the first
`count`. With fewer ticks than the budget it has handled them all and is still waiting.
With `count = 0` it never returns on its own: given `k` ticks it makes `k` exchanges and is
still waiting. -/
theorem C4_iteration_budget (lib : Lib) (fl : Flags) (ns : String) (xs : List Exchange)
    (st : Stats) :
    (0 < fl.count → fl.count.toNat ≤ xs.length →
      (pinger lib fl ns (xs.map Event.tick) st).status = Status.returned ∧
      (pinger lib fl ns (xs.map Event.tick) st).st.exchanges
        = st.exchanges ++ List.replicate fl.count.toNat ns ∧
      (pinger lib fl ns (xs.map Event.tick) st).st.statHistogram
        = st.statHistogram
            ++ ((xs.take fl.count.toNat).filter
                  (fun x => x.err.isNone && decide (x.res.Rcode = lib.RcodeSuccess))).map
                (fun x => F64.mul (F64.fin 1000) (lib.Seconds x.rtt)) ∧
      (pinger lib fl ns (xs.map Event.tick) st).rest
        = (xs.drop fl.count.toNat).map Event.tick) ∧
    (0 < fl.count → xs.length < fl.count.toNat →
      (pinger lib fl ns (xs.map Event.tick) st).status = Status.waiting ∧
      (pinger lib fl ns (xs.map Event.tick) st).st.exchanges
        = st.exchanges ++ List.replicate xs.length ns) ∧
    (fl.count = 0 →
      (pinger lib fl ns (xs.map Event.tick) st).status = Status.waiting ∧
      (pinger lib fl ns (xs.map Event.tick) st).st.exchanges
        = st.exchanges ++ List.replicate xs.length ns) := by
  refine ⟨?_, ?_, ?_⟩
  · intro hc hlen
    have h := pingerLoop_budget lib fl ns hc xs 1 st fl.count.toNat (by omega) hlen
    unfold pinger
    rw [h]
    refine ⟨rfl, ?_, ?_, rfl⟩
    · simp only [attempts_exchanges, List.length_take, Nat.min_eq_left hlen]
    · simp only [attempts_statHistogram, successSamples]
  · intro hc hlen
    have h := pingerLoop_short lib fl ns xs 1 st (by omega)
    unfold pinger
    rw [h]
    exact ⟨rfl, attempts_exchanges lib fl ns xs st⟩
  · intro hc
    have h := pingerLoop_unbounded lib fl ns (le_of_eq hc) xs 1 st
    unfold pinger
    rw [h]
    exact ⟨rfl, attempts_exchanges lib fl ns xs st⟩

/-- C4 at sample values: a budget of five and six ticks, the second and fourth failing;
the three successes among the first five took 3 ms each. -/
theorem C4_iteration_budget_witness :
    (pinger sampleLib sampleFlags "10.0.0.1:53"
        ([okExchange, timeoutExchange, okExchange, servfailExchange, okExchange,
          okExchange].map Event.tick) Stats.init).status = Status.returned ∧
    (pinger sampleLib sampleFlags "10.0.0.1:53"
        ([okExchange, timeoutExchange, okExchange, servfailExchange, okExchange,
          okExchange].map Event.tick) Stats.init).st.exchanges
      = List.replicate 5 "10.0.0.1:53" ∧
    (pinger sampleLib sampleFlags "10.0.0.1:53"
        ([okExchange, timeoutExchange, okExchange, servfailExchange, okExchange,
          okExchange].map Event.tick) Stats.init).st.statHistogram
      = [F64.fin 3, F64.fin 3, F64.fin 3] := by
  have h := (C4_iteration_budget sampleLib sampleFlags "10.0.0.1:53"
    [okExchange, timeoutExchange, okExchange, servfailExchange, okExchange, okExchange]
    Stats.init).1 (by decide) (by decide)
  refine ⟨h.1, h.2.1, ?_⟩
  rw [h.2.2.1]
  have h3 : F64.mul (F64.fin 1000) (sampleLib.Seconds 3000000) = F64.fin 3 := by
    simp only [sampleLib, F64.div, F64.ofInt, F64.mul]
    norm_num
  have hf : ([okExchange, timeoutExchange, okExchange, servfailExchange, okExchange,
        okExchange].take sampleFlags.count.toNat).filter
        (fun x => x.err.isNone && decide (x.res.Rcode = sampleLib.RcodeSuccess))
      = [okExchange, okExchange, okExchange] := by decide
  rw [hf]
  show [] ++ [F64.mul (F64.fin 1000) (sampleLib.Seconds 3000000),
    F64.mul (F64.fin 1000) (sampleLib.Seconds 3000000),
    F64.mul (F64.fin 1000) (sampleLib.Seconds 3000000)] = _
  rw [h3]
  rfl

/-! ## Lemmas on shutdown seen by a pinger -/

theorem iteration_done (lib : Lib) (fl : Flags) (ns : String) (i : Int) (st : Stats) :
    iteration lib fl ns Event.done i st = none := by
  unfold iteration
  split <;> rfl

/-- A pinger that has returned (or an index with no pinger) ignores what is delivered. -/
theorem System.deliver_returned (lib : Lib) (fl : Flags) (k : Nat) (ev : Event) (sys : System)
    (h : ∀ ns i, sys.loops[k]? ≠ some (ns, some i)) : System.deliver lib fl k ev sys = sys := by
  unfold System.deliver
  split
  · rename_i ns i heq
    exact absurd heq (h ns i)
  · rfl

theorem System.deliver_done (lib : Lib) (fl : Flags) (k : Nat) (sys : System) :
    (System.deliver lib fl k Event.done sys).st = sys.st ∧
    (System.deliver lib fl k Event.done sys).completed = sys.completed ∧
    ∀ ns i, (System.deliver lib fl k Event.done sys).loops[k]? ≠ some (ns, some i) := by
  unfold System.deliver
  split
  · rename_i ns i heq
    simp only [iteration_done]
    refine ⟨trivial, trivial, ?_⟩
    intro ns' i' hset
    have hk : k < sys.loops.length := by
      by_contra hlt
      have : sys.loops[k]? = none := List.getElem?_eq_none (by omega)
      rw [this] at heq
      cases heq
    rw [List.getElem?_set_self hk] at hset
    cases hset
  · rename_i hne
    exact ⟨rfl, rfl, fun ns i heq => hne ns i heq⟩

theorem System.run_returned (lib : Lib) (fl : Flags) (k : Nat) (evs : List Event) :
    ∀ sys : System, (∀ ns i, sys.loops[k]? ≠ some (ns, some i)) →
      System.run lib fl (evs.map (fun e => (k, e))) sys = sys := by
  induction evs with
  | nil => intro sys _; rfl
  | cons e rest ih =>
      intro sys h
      simp only [List.map_cons, System.run, List.foldl_cons]
      rw [System.deliver_returned lib fl k e sys h]
      exact ih sys h

/-! ## C5 -/

/-- C5, as the code has it: when `done` is closed and no tick is buffered as the loop
reaches its `select`, the only case that can proceed is `done`; and when the `select` takes
the `done` case the loop returns at once with the shared state as it was, and nothing
delivered to that pinger afterwards makes an exchange, moves a counter or records a
sample. -/
theorem C5_done_stops_pinger (lib : Lib) (fl : Flags) (ns : String) (ch : Chans) (ev : Event)
    (hd : ch.doneClosed = true) (ht : ch.tickPending = false) (hm : selectMay ch ev = true) :
    ev = Event.done ∧
    (∀ (evs : List Event) (i : Int) (st : Stats), loopCond fl i = true →
      pingerLoop lib fl ns (Event.done :: evs) i st
        = { status := Status.returned, st := st, rest := evs }) ∧
    (∀ (k : Nat) (sys : System) (later : List Event),
      System.run lib fl (later.map (fun e => (k, e))) (System.deliver lib fl k Event.done sys)
        = System.deliver lib fl k Event.done sys ∧
      (System.deliver lib fl k Event.done sys).st = sys.st ∧
      (System.deliver lib fl k Event.done sys).completed = sys.completed) := by
  refine ⟨?_, ?_, ?_⟩
  · cases ev with
    | done => rfl
    | tick x => simp [selectMay, selectReady, hd, ht, Event.isDone] at hm
  · intro evs i st hc
    simp [pingerLoop, hc]
  · intro k sys later
    have h := System.deliver_done lib fl k sys
    exact ⟨System.run_returned lib fl k later _ h.2.2, h.1, h.2.1⟩

/-- C5 at sample values: `done` closed, no tick buffered. -/
theorem C5_done_stops_pinger_witness :
    pingerLoop sampleLib sampleFlags "10.0.0.1:53" [Event.done, Event.tick okExchange] 1
        Stats.init
      = { status := Status.returned, st := Stats.init, rest := [Event.tick okExchange] } :=
  (C5_done_stops_pinger sampleLib sampleFlags "10.0.0.1:53"
      { doneClosed := true, tickPending := false } Event.done rfl rfl (by decide)).2.1
    [Event.tick okExchange] 1 Stats.init (by decide)

/-- C5 as stated fails: with `done` closed and a tick buffered at the same moment the
`select` may take the ticker case, and the pinger then makes one more exchange and counts
it before it stops. -/
theorem C5_counterexample_tick_chosen :
    ({ doneClosed := true, tickPending := true } : Chans).doneClosed = true ∧
    selectMay { doneClosed := true, tickPending := true } (Event.tick timeoutExchange) = true ∧
    (pinger sampleLib sampleFlags "10.0.0.1:53" [Event.tick timeoutExchange, Event.done]
        Stats.init).st.exchanges = ["10.0.0.1:53"] ∧
    (pinger sampleLib sampleFlags "10.0.0.1:53" [Event.tick timeoutExchange, Event.done]
        Stats.init).st.errorCount = 1 ∧
    (pinger sampleLib sampleFlags "10.0.0.1:53" [Event.tick timeoutExchange, Event.done]
        Stats.init).status = Status.returned := by
  decide

/-! ## Lemmas on the start of the workers -/

theorem spawn_from (l : List String) :
    ∀ acc : List String, l.foldl (fun started nserver => started ++ [nserver]) acc = acc ++ l := by
  induction l with
  | nil => intro acc; simp
  | cons a rest ih => intro acc; simp [ih]

theorem spawn_eq (l : List String) : spawn l = l := by
  unfold spawn
  rw [spawn_from]
  rfl

theorem utf8ByteSize_go_pos (c : Char) (cs : List Char) : 0 < String.utf8ByteSize.go (c :: cs) := by
  have := Char.utf8Size_pos c
  simp only [String.utf8ByteSize.go]
  omega

theorem utf8ByteSize_eq_zero (s : String) : s.utf8ByteSize = 0 ↔ s = "" := by
  cases s with
  | mk l =>
      cases l with
      | nil => exact ⟨fun _ => rfl, fun _ => rfl⟩
      | cons c cs =>
          constructor
          · intro h
            have := utf8ByteSize_go_pos c cs
            simp only [String.utf8ByteSize] at h
            omega
          · intro h
            exact absurd (congrArg String.data h) (List.cons_ne_nil c cs)

theorem mainStart_valid (lib : Lib) (fl : Flags) (h : validConfig lib fl) :
    ∃ qt, lib.StringToType (lib.ToUpper fl.queryType) = some qt ∧
      mainStart lib fl = Startup.started qt fl.nameservers := by
  obtain ⟨hn, hs, ht⟩ := h
  obtain ⟨qt, hqt⟩ := Option.isSome_iff_exists.mp ht
  refine ⟨qt, hqt, ?_⟩
  have h1 : ¬ fl.name.utf8ByteSize = 0 := fun h0 => hn ((utf8ByteSize_eq_zero _).mp h0)
  have h2 : ¬ fl.nameservers.length < 1 := by
    cases hl : fl.nameservers with
    | nil => exact absurd hl hs
    | cons a r => simp
  simp [mainStart, h1, h2, hqt, spawn_eq]

theorem mainStart_invalid (lib : Lib) (fl : Flags) (h : ¬ validConfig lib fl) :
    (mainStart lib fl).workers = [] ∧ (mainStart lib fl).exited = true := by
  unfold mainStart
  by_cases h1 : fl.name.utf8ByteSize = 0
  · simp [h1, Startup.workers, Startup.exited]
  · by_cases h2 : fl.nameservers.length < 1
    · simp [h2, Startup.workers, Startup.exited]
    · cases hq : lib.StringToType (lib.ToUpper fl.queryType) with
      | none => simp [h1, h2, Startup.workers, Startup.exited]
      | some qt =>
          exfalso
          apply h
          refine ⟨fun hn => h1 ((utf8ByteSize_eq_zero _).mpr hn), ?_, by simp [hq]⟩
          intro hs
          apply h2
          simp [hs]

/-! ## C6 -/

/-- C6: `main` starts workers if and only if the name is non-empty, the nameserver list is
non-empty and the upper-cased query type keyword is a key of `dns.StringToType`. When it
does, it starts exactly one pinger per listed nameserver, in order; when it does not, it
leaves through `os.Exit(1)` (after the usage text or the `Invalid query type` message) and
starts no worker. -/
theorem C6_workers_started_iff_valid (lib : Lib) (fl : Flags) :
    ((mainStart lib fl).workers ≠ [] ↔
      (fl.name ≠ "" ∧ fl.nameservers ≠ [] ∧
        (lib.StringToType (lib.ToUpper fl.queryType)).isSome = true)) ∧
    ((fl.name ≠ "" ∧ fl.nameservers ≠ [] ∧
        (lib.StringToType (lib.ToUpper fl.queryType)).isSome = true) →
      (mainStart lib fl).workers = fl.nameservers ∧ (mainStart lib fl).exited = false) ∧
    (¬ (fl.name ≠ "" ∧ fl.nameservers ≠ [] ∧
        (lib.StringToType (lib.ToUpper fl.queryType)).isSome = true) →
      (mainStart lib fl).workers = [] ∧ (mainStart lib fl).exited = true) ∧
    (fl.name ≠ "" → fl.nameservers ≠ [] →
      lib.StringToType (lib.ToUpper fl.queryType) = none →
      mainStart lib fl
        = Startup.invalidTypeExit ("Invalid query type " ++ lib.quoted fl.queryType ++ "\n")) := by
  have hv : validConfig lib fl →
      (mainStart lib fl).workers = fl.nameservers ∧ (mainStart lib fl).exited = false := by
    intro h
    obtain ⟨qt, _, hs⟩ := mainStart_valid lib fl h
    rw [hs]
    exact ⟨rfl, rfl⟩
  refine ⟨⟨?_, ?_⟩, hv, mainStart_invalid lib fl, ?_⟩
  · intro hw
    by_contra hnv
    exact hw (mainStart_invalid lib fl hnv).1
  · intro h
    rw [(hv h).1]
    exact h.2.1
  · intro hn hs hq
    have h1 : ¬ fl.name.utf8ByteSize = 0 := fun h0 => hn ((utf8ByteSize_eq_zero _).mp h0)
    have h2 : ¬ fl.nameservers.length < 1 := by
      cases hl : fl.nameservers with
      | nil => exact absurd hl hs
      | cons a r => simp
    simp [mainStart, h1, h2, hq]

/-- C6 at sample values: the keyword `a` starts the three workers, the keyword `bogus`
starts none. -/
theorem C6_workers_started_iff_valid_witness :
    (mainStart sampleLib sampleFlags).workers = ["10.0.0.1:53", "10.0.0.2:53", "10.0.0.3:53"] ∧
    (mainStart sampleLib { sampleFlags with queryType := "bogus" }).workers = [] ∧
    (mainStart sampleLib { sampleFlags with queryType := "bogus" }).exited = true :=
  ⟨((C6_workers_started_iff_valid sampleLib sampleFlags).2.1
      ⟨by decide, by decide, by decide⟩).1,
   ((C6_workers_started_iff_valid sampleLib { sampleFlags with queryType := "bogus" }).2.2.1
      (by decide)).1,
   ((C6_workers_started_iff_valid sampleLib { sampleFlags with queryType := "bogus" }).2.2.1
      (by decide)).2⟩

/-! ## Lemmas on the only-errors flag -/

theorem attempt_sameTotals (lib : Lib) (f1 f2 : Flags) (h1 : f1.onlyError = true)
    (h2 : f2.onlyError = false) (ns : String) (x : Exchange) (a b : Stats)
    (h : a.sameTotals b) : (attempt lib f1 ns x a).sameTotals (attempt lib f2 ns x b) := by
  obtain ⟨he, hs, hh, hx, ho⟩ := h
  rcases attempt_cases lib x with ⟨e, herr⟩ | ⟨herr, hr⟩ | ⟨herr, hr⟩
  · rw [attempt_of_err lib f1 ns x a e herr, attempt_of_err lib f2 ns x b e herr]
    exact ⟨by simp [he], hs, hh, by simp [hx], List.Sublist.append ho (List.Sublist.refl _)⟩
  · rw [attempt_of_badRcode lib f1 ns x a herr hr, attempt_of_badRcode lib f2 ns x b herr hr]
    exact ⟨by simp [he], hs, hh, by simp [hx], List.Sublist.append ho (List.Sublist.refl _)⟩
  · rw [attempt_of_success lib f1 ns x a herr hr, attempt_of_success lib f2 ns x b herr hr]
    refine ⟨he, by simp [hs], by simp [hh], by simp [hx], ?_⟩
    simp only [h1, h2, if_true]
    exact ho.trans (List.sublist_append_left _ _)

theorem pingerLoop_sameTotals (lib : Lib) (f1 f2 : Flags) (h1 : f1.onlyError = true)
    (h2 : f2.onlyError = false) (hc : f1.count = f2.count) (ns : String) (evs : List Event) :
    ∀ (i : Int) (a b : Stats), a.sameTotals b →
      (pingerLoop lib f1 ns evs i a).status = (pingerLoop lib f2 ns evs i b).status ∧
      (pingerLoop lib f1 ns evs i a).rest = (pingerLoop lib f2 ns evs i b).rest ∧
      (pingerLoop lib f1 ns evs i a).st.sameTotals (pingerLoop lib f2 ns evs i b).st := by
  have hcond : ∀ i, loopCond f1 i = loopCond f2 i := by intro i; simp [loopCond, hc]
  induction evs with
  | nil =>
      intro i a b h
      simp only [pingerLoop, hcond]
      cases loopCond f2 i <;> exact ⟨rfl, rfl, h⟩
  | cons ev rest ih =>
      intro i a b h
      simp only [pingerLoop, hcond]
      cases loopCond f2 i with
      | false => exact ⟨rfl, rfl, h⟩
      | true =>
          cases ev with
          | done => exact ⟨rfl, rfl, h⟩
          | tick x => exact ih (i + 1) _ _ (attempt_sameTotals lib f1 f2 h1 h2 ns x a b h)

theorem System.deliver_sameTotals (lib : Lib) (f1 f2 : Flags) (h1 : f1.onlyError = true)
    (h2 : f2.onlyError = false) (hc : f1.count = f2.count) (k : Nat) (ev : Event)
    (s t : System) (h : s.sameTotals t) :
    (System.deliver lib f1 k ev s).sameTotals (System.deliver lib f2 k ev t) := by
  obtain ⟨hl, hn, hst⟩ := h
  have hcond : ∀ i, loopCond f1 i = loopCond f2 i := by intro i; simp [loopCond, hc]
  unfold System.deliver
  rw [hl]
  cases hg : t.loops[k]? with
  | none => exact ⟨hl, hn, hst⟩
  | some p =>
      obtain ⟨ns, oi⟩ := p
      cases oi with
      | none => exact ⟨hl, hn, hst⟩
      | some i =>
          simp only [iteration, hcond]
          cases loopCond f2 i with
          | false => exact ⟨by simp [hl], hn, hst⟩
          | true =>
              cases ev with
              | done => exact ⟨by simp [hl], hn, hst⟩
              | tick x =>
                  exact ⟨by simp [hl], by simp [hn],
                    attempt_sameTotals lib f1 f2 h1 h2 ns x s.st t.st hst⟩

theorem System.run_sameTotals (lib : Lib) (f1 f2 : Flags) (h1 : f1.onlyError = true)
    (h2 : f2.onlyError = false) (hc : f1.count = f2.count) (sched : List (Nat × Event)) :
    ∀ s t : System, s.sameTotals t →
      (System.run lib f1 sched s).sameTotals (System.run lib f2 sched t) := by
  induction sched with
  | nil => intro s t h; exact h
  | cons p rest ih =>
      intro s t h
      exact ih _ _ (System.deliver_sameTotals lib f1 f2 h1 h2 hc p.1 p.2 s t h)

theorem showStat_sameTotals (lib : Lib) (f1 f2 : Flags) (hn : f1.name = f2.name)
    (hs : f1.nameservers = f2.nameservers) (a b : Stats) (h : a.sameTotals b) :
    showStat lib f1 a = showStat lib f2 b := by
  obtain ⟨he, hsu, hh, _, _⟩ := h
  simp [showStat, errorPerc, successPerc, percDivisor, he, hsu, hh, hn, hs]

/-! ## C7 -/

/-- C7: the only-errors flag does not influence the totals. For every sequence of events
given to one pinger, and for every sequential order of the passes of several pingers, the
run with only-errors set and the run with it unset end with the same `errorCount`, the same
`successCount`, the same histogram samples and so the same summary from `showStat`; the
pingers return at the same points and make the same exchanges; the output with the flag
set is the output without it with blocks left out, and a single attempt prints differently
under the two settings only when it is a success. -/
theorem C7_only_errors_same_totals (lib : Lib) (fl : Flags) (ns : String) (evs : List Event)
    (workers : List String) (sched : List (Nat × Event)) :
    ((pinger lib { fl with onlyError := true } ns evs Stats.init).st.errorCount
        = (pinger lib { fl with onlyError := false } ns evs Stats.init).st.errorCount ∧
      (pinger lib { fl with onlyError := true } ns evs Stats.init).st.successCount
        = (pinger lib { fl with onlyError := false } ns evs Stats.init).st.successCount ∧
      (pinger lib { fl with onlyError := true } ns evs Stats.init).st.statHistogram
        = (pinger lib { fl with onlyError := false } ns evs Stats.init).st.statHistogram ∧
      (pinger lib { fl with onlyError := true } ns evs Stats.init).status
        = (pinger lib { fl with onlyError := false } ns evs Stats.init).status ∧
      showStat lib { fl with onlyError := true }
          (pinger lib { fl with onlyError := true } ns evs Stats.init).st
        = showStat lib { fl with onlyError := false }
          (pinger lib { fl with onlyError := false } ns evs Stats.init).st) ∧
    ((System.run lib { fl with onlyError := true } sched
          (System.start workers Stats.init)).st.errorCount
        = (System.run lib { fl with onlyError := false } sched
          (System.start workers Stats.init)).st.errorCount ∧
      (System.run lib { fl with onlyError := true } sched
          (System.start workers Stats.init)).st.successCount
        = (System.run lib { fl with onlyError := false } sched
          (System.start workers Stats.init)).st.successCount ∧
      (System.run lib { fl with onlyError := true } sched
          (System.start workers Stats.init)).st.statHistogram
        = (System.run lib { fl with onlyError := false } sched
          (System.start workers Stats.init)).st.statHistogram ∧
      (System.run lib { fl with onlyError := true } sched
          (System.start workers Stats.init)).st.exchanges
        = (System.run lib { fl with onlyError := false } sched
          (System.start workers Stats.init)).st.exchanges ∧
      showStat lib { fl with onlyError := true }
          (System.run lib { fl with onlyError := true } sched
            (System.start workers Stats.init)).st
        = showStat lib { fl with onlyError := false }
          (System.run lib { fl with onlyError := false } sched
            (System.start workers Stats.init)).st ∧
      (System.run lib { fl with onlyError := true } sched
          (System.start workers Stats.init)).st.stdout.Sublist
        (System.run lib { fl with onlyError := false } sched
          (System.start workers Stats.init)).st.stdout) ∧
    (∀ (x : Exchange) (st : Stats), Exchange.ok lib x = false →
      attempt lib { fl with onlyError := true } ns x st
        = attempt lib { fl with onlyError := false } ns x st) := by
  have hinit : Stats.init.sameTotals Stats.init := ⟨rfl, rfl, rfl, rfl, List.Sublist.refl _⟩
  refine ⟨?_, ?_, ?_⟩
  · have h := pingerLoop_sameTotals lib { fl with onlyError := true }
      { fl with onlyError := false } rfl rfl rfl ns evs 1 _ _ hinit
    exact ⟨h.2.2.1, h.2.2.2.1, h.2.2.2.2.1, h.1,
      showStat_sameTotals lib _ _ rfl rfl _ _ h.2.2⟩
  · have h := System.run_sameTotals lib { fl with onlyError := true }
      { fl with onlyError := false } rfl rfl rfl sched _ _
      (⟨rfl, rfl, hinit⟩ : (System.start workers Stats.init).sameTotals
        (System.start workers Stats.init))
    exact ⟨h.2.2.1, h.2.2.2.1, h.2.2.2.2.1, h.2.2.2.2.2.1,
      showStat_sameTotals lib _ _ rfl rfl _ _ h.2.2, h.2.2.2.2.2.2⟩
  · intro x st hok
    rcases attempt_cases lib x with ⟨e, herr⟩ | ⟨herr, hr⟩ | ⟨herr, hr⟩
    · rw [attempt_of_err lib _ ns x st e herr, attempt_of_err lib _ ns x st e herr]
    · rw [attempt_of_badRcode lib _ ns x st herr hr, attempt_of_badRcode lib _ ns x st herr hr]
    · simp [Exchange.ok, herr, hr] at hok

/-- C7 at sample values: a timeout prints the same block under both settings. -/
theorem C7_only_errors_same_totals_witness :
    attempt sampleLib { sampleFlags with onlyError := true } "10.0.0.1:53" timeoutExchange
        Stats.init
      = attempt sampleLib { sampleFlags with onlyError := false } "10.0.0.1:53" timeoutExchange
        Stats.init :=
  (C7_only_errors_same_totals sampleLib sampleFlags "10.0.0.1:53" [] [] []).2.2
    timeoutExchange Stats.init (by decide)

/-! ## Lemmas on the percentages of showStat -/

/-- With at least one completed attempt both percentages are numbers. -/
theorem percentages_finite (st : Stats) (h : st.errorCount + st.successCount ≠ 0) :
    (errorPerc st).isFinite = true ∧ (successPerc st).isFinite = true := by
  have hq : (st.errorCount : ℚ) + (st.successCount : ℚ) ≠ 0 := by exact_mod_cast h
  simp [errorPerc, successPerc, percDivisor, F64.ofInt, F64.mul, F64.div, hq, F64.isFinite]

/-! ## C8 -/

/-- C8, the code at the input where it departs from the claim: a pinger stopped by `done`
before its first tick leaves `errorCount = successCount = 0`; the divisor of both
percentages in `showStat` is then `float64(0)`, the two quotients are `0/0`, and the
report holds NaN for the error percentage and for the success percentage (no fault
occurs: the division returns NaN). -/
theorem C8_percentages_nan_when_no_attempt (lib : Lib) (fl : Flags) (ns : String) :
    (pinger lib fl ns [Event.done] Stats.init).status = Status.returned ∧
    (pinger lib fl ns [Event.done] Stats.init).st = Stats.init ∧
    percDivisor Stats.init = F64.fin 0 ∧
    (showStat lib fl (pinger lib fl ns [Event.done] Stats.init).st).errorPerc = F64.nan ∧
    (showStat lib fl (pinger lib fl ns [Event.done] Stats.init).st).successPerc = F64.nan := by
  have hc : loopCond fl 1 = true := by
    unfold loopCond
    by_cases h : fl.count ≤ 0
    · simp [h]
    · have : (1 : Int) ≤ fl.count := by omega
      simp [this]
  have hp : pinger lib fl ns [Event.done] Stats.init
      = { status := Status.returned, st := Stats.init, rest := [] } := by
    simp [pinger, pingerLoop, hc]
  rw [hp]
  refine ⟨rfl, rfl, ?_, ?_, ?_⟩
  · simp [percDivisor, Stats.init, F64.ofInt]
  · simp [showStat, errorPerc, percDivisor, Stats.init, F64.ofInt, F64.mul, F64.div]
  · simp [showStat, successPerc, percDivisor, Stats.init, F64.ofInt, F64.mul, F64.div]

/-! ## Lemmas on the increments step by step -/

theorem lt_length_of_getElem? {α : Type} (l : List α) (k : Nat) (a : α) (h : l[k]? = some a) :
    k < l.length := by
  by_contra hlt
  have : l[k]? = none := List.getElem?_eq_none (by omega)
  rw [this] at h
  cases h

theorem getElem?_set_of_some {α : Type} (l : List α) (k : Nat) (a b : α)
    (h : l[k]? = some a) : (l.set k b)[k]? = some b := by
  rw [List.getElem?_set_self (lt_length_of_getElem? l k a h)]

theorem mem_of_getElem?_some {α : Type} (l : List α) (k : Nat) (a : α) (h : l[k]? = some a) :
    a ∈ l := by
  obtain ⟨hk, he⟩ := List.getElem?_eq_some_iff.mp h
  rw [← he]
  exact List.getElem_mem hk

/-- Replacing one element of a list moves the sum of a measure by the difference. -/
theorem sum_map_set (f : Thread → Nat) (l : List Thread) :
    ∀ (k : Nat) (t t' : Thread), l[k]? = some t →
      ((l.set k t').map f).sum + f t = (l.map f).sum + f t' := by
  induction l with
  | nil => intro k t t' h; cases h
  | cons a rest ih =>
      intro k t t' h
      cases k with
      | zero =>
          simp only [List.getElem?_cons_zero, Option.some.injEq] at h
          subst h
          simp only [List.set_cons_zero, List.map_cons, List.sum_cons]
          omega
      | succ k =>
          simp only [List.getElem?_cons_succ] at h
          have := ih k t t' h
          simp only [List.set_cons_succ, List.map_cons, List.sum_cons]
          omega

/-- A whole attempt of goroutine `k`, when no goroutine is inside an attempt: each
increment is made on the current value of its variable. -/
theorem wholeAttempt_eq (k : Nat) (sh : Shared) (t : Thread) (h : sh.threads[k]? = some t)
    (hpc : t.pc = 0) :
    wholeAttempt k sh =
      match t.todo with
      | [] => sh
      | false :: rest =>
          { sh with errorCount := sh.errorCount + 1,
                    threads := sh.threads.set k ⟨rest, 0, sh.errorCount⟩ }
      | true :: rest =>
          { sh with records := sh.records + 1, successCount := sh.successCount + 1,
                    threads := sh.threads.set k ⟨rest, 0, sh.successCount⟩ } := by
  obtain ⟨todo, pc, reg⟩ := t
  simp only at hpc
  subst hpc
  cases todo with
  | nil =>
      have h1 : microStep k sh = sh := by simp [microStep, h]
      simp [wholeAttempt, h1, midAttempt, h]
  | cons ok rest =>
      cases ok with
      | false =>
          have h1 : microStep k sh
              = { sh with threads := sh.threads.set k ⟨false :: rest, 1, sh.errorCount⟩ } := by
            simp [microStep, h]
          have g1 := getElem?_set_of_some sh.threads k _
            (⟨false :: rest, 1, sh.errorCount⟩ : Thread) h
          have h2 : microStep k (microStep k sh)
              = { sh with errorCount := sh.errorCount + 1,
                          threads := sh.threads.set k ⟨rest, 0, sh.errorCount⟩ } := by
            rw [h1]
            simp [microStep, g1, List.set_set]
          have g2 := getElem?_set_of_some sh.threads k _
            (⟨rest, 0, sh.errorCount⟩ : Thread) h
          have m1 : midAttempt k (microStep k sh) = true := by
            rw [h1]; simp [midAttempt, g1]
          have m2 : midAttempt k (microStep k (microStep k sh)) = false := by
            rw [h2]; simp [midAttempt, g2]
          simp only [wholeAttempt, m1, m2, if_true]
          simpa using h2
      | true =>
          have h1 : microStep k sh
              = { sh with threads := sh.threads.set k ⟨true :: rest, 1, sh.records⟩ } := by
            simp [microStep, h]
          have g1 := getElem?_set_of_some sh.threads k _
            (⟨true :: rest, 1, sh.records⟩ : Thread) h
          have h2 : microStep k (microStep k sh)
              = { sh with records := sh.records + 1,
                          threads := sh.threads.set k ⟨true :: rest, 2, sh.records⟩ } := by
            rw [h1]
            simp [microStep, g1, List.set_set]
          have g2 := getElem?_set_of_some sh.threads k _
            (⟨true :: rest, 2, sh.records⟩ : Thread) h
          have h3 : microStep k (microStep k (microStep k sh))
              = { sh with records := sh.records + 1,
                          threads := sh.threads.set k ⟨true :: rest, 3, sh.successCount⟩ } := by
            rw [h2]
            simp [microStep, g2, List.set_set]
          have g3 := getElem?_set_of_some sh.threads k _
            (⟨true :: rest, 3, sh.successCount⟩ : Thread) h
          have h4 : microStep k (microStep k (microStep k (microStep k sh)))
              = { sh with records := sh.records + 1, successCount := sh.successCount + 1,
                          threads := sh.threads.set k ⟨rest, 0, sh.successCount⟩ } := by
            rw [h3]
            simp [microStep, g3, List.set_set]
          have m1 : midAttempt k (microStep k sh) = true := by
            rw [h1]; simp [midAttempt, g1]
          have m2 : midAttempt k (microStep k (microStep k sh)) = true := by
            rw [h2]; simp [midAttempt, g2]
          have m3 : midAttempt k (microStep k (microStep k (microStep k sh))) = true := by
            rw [h3]; simp [midAttempt, g3]
          simp only [wholeAttempt, m1, m2, m3, if_true]
          simpa using h4

theorem wholeAttempt_settled (k : Nat) (sh : Shared) (total nOk nFail : Nat)
    (h : sh.Settled total nOk nFail) : (wholeAttempt k sh).Settled total nOk nFail := by
  obtain ⟨hpc, hsum, hok, hfail, hrec⟩ := h
  cases hg : sh.threads[k]? with
  | none =>
      have h1 : microStep k sh = sh := by simp [microStep, hg]
      have : wholeAttempt k sh = sh := by simp [wholeAttempt, h1, midAttempt, hg]
      rw [this]
      exact ⟨hpc, hsum, hok, hfail, hrec⟩
  | some t =>
      have ht0 := hpc t (mem_of_getElem?_some _ _ _ hg)
      rw [wholeAttempt_eq k sh t hg ht0]
      obtain ⟨todo, pc, reg⟩ := t
      cases todo with
      | nil => exact ⟨hpc, hsum, hok, hfail, hrec⟩
      | cons ok rest =>
          have hpc' : ∀ (r : Int), ∀ u ∈ sh.threads.set k ⟨rest, 0, r⟩, u.pc = 0 := by
            intro r u hu
            rcases List.mem_or_eq_of_mem_set hu with hm | he
            · exact hpc u hm
            · rw [he]
          have hs : ∀ (r : Int),
              ((sh.threads.set k ⟨rest, 0, r⟩).map (fun t => t.todo.length)).sum + 1
                = (sh.threads.map (fun t => t.todo.length)).sum := by
            intro r
            have := sum_map_set (fun t => t.todo.length) sh.threads k _
              (⟨rest, 0, r⟩ : Thread) hg
            simp only [List.length_cons] at this
            omega
          have hc : ∀ (b : Bool) (r : Int),
              ((sh.threads.set k ⟨rest, 0, r⟩).map (fun t => t.todo.count b)).sum
                  + (if ok = b then 1 else 0)
                = (sh.threads.map (fun t => t.todo.count b)).sum := by
            intro b r
            have := sum_map_set (fun t => t.todo.count b) sh.threads k _
              (⟨rest, 0, r⟩ : Thread) hg
            simp only [List.count_cons, beq_iff_eq] at this
            omega
          cases ok with
          | false =>
              have c1 := hc true sh.errorCount
              have c2 := hc false sh.errorCount
              have c3 := hs sh.errorCount
              simp only [Bool.false_eq_true, if_false, if_true, add_zero] at c1 c2
              simp only [Shared.remaining, Shared.remainingOf] at hsum hok hfail ⊢
              refine ⟨hpc' _, ?_, ?_, ?_, hrec⟩
              · simp only [Shared.remaining]; omega
              · simp only [Shared.remainingOf]; omega
              · simp only [Shared.remainingOf]; omega
          | true =>
              have c1 := hc true sh.successCount
              have c2 := hc false sh.successCount
              have c3 := hs sh.successCount
              simp only [Bool.true_eq_false, if_false, if_true, add_zero] at c1 c2
              simp only [Shared.remaining, Shared.remainingOf] at hsum hok hfail ⊢
              refine ⟨hpc' _, ?_, ?_, ?_, ?_⟩
              · simp only [Shared.remaining]; omega
              · simp only [Shared.remainingOf]; omega
              · simp only [Shared.remainingOf]; omega
              · simp only; omega

theorem runAttempts_settled (sched : List Nat) (total nOk nFail : Nat) :
    ∀ sh : Shared, sh.Settled total nOk nFail →
      (runAttempts sched sh).Settled total nOk nFail := by
  induction sched with
  | nil => intro sh h; exact h
  | cons k rest ih => intro sh h; exact ih _ (wholeAttempt_settled k sh total nOk nFail h)

theorem start_remaining (lib : Lib) (m : Nat) (work : List (List Exchange))
    (h : ∀ xs ∈ work, xs.length = m) :
    (Shared.start lib work).remaining = work.length * m := by
  induction work with
  | nil => simp [Shared.start, Shared.remaining]
  | cons xs rest ih =>
      have h1 := h xs (List.mem_cons_self _ _)
      have h2 := ih (fun ys hy => h ys (List.mem_cons_of_mem _ hy))
      simp only [Shared.start, Shared.remaining, List.map_cons, List.sum_cons, List.length_map,
        List.length_cons] at h2 ⊢
      rw [h2, h1]
      ring

/-- Counting the successes (or the failures) in the classified results of a goroutine. -/
theorem count_map_ok (lib : Lib) (b : Bool) (xs : List Exchange) :
    (xs.map (Exchange.ok lib)).count b
      = (xs.filter (fun x =>
          (x.err.isNone && decide (x.res.Rcode = lib.RcodeSuccess)) == b)).length := by
  induction xs with
  | nil => rfl
  | cons x rest ih =>
      simp only [List.map_cons, List.count_cons, List.filter_cons, ih, Exchange.ok]
      by_cases hb : (x.err.isNone && decide (x.res.Rcode = lib.RcodeSuccess)) = b
      · simp [hb]
      · simp [hb]

theorem start_remainingOf (lib : Lib) (b : Bool) (work : List (List Exchange)) :
    (Shared.start lib work).remainingOf b = outcomesOf lib b work := by
  induction work with
  | nil => rfl
  | cons xs rest ih =>
      simp only [Shared.start, Shared.remainingOf, outcomesOf, List.map_cons, List.sum_cons,
        List.map_map] at ih ⊢
      rw [ih, count_map_ok]

theorem start_settled (lib : Lib) (work : List (List Exchange)) :
    (Shared.start lib work).Settled (Shared.start lib work).remaining
      (outcomesOf lib true work) (outcomesOf lib false work) := by
  refine ⟨?_, ?_, ?_, ?_, ?_⟩
  · intro t ht
    simp only [Shared.start, List.mem_map] at ht
    obtain ⟨xs, _, rfl⟩ := ht
    rfl
  · simp [Shared.start]
  · rw [start_remainingOf]
    simp [Shared.start]
  · rw [start_remainingOf]
    simp [Shared.start]
  · simp [Shared.start]

theorem joined_remaining (sh : Shared) (h : sh.joined = true) :
    sh.remaining = 0 ∧ ∀ b, sh.remainingOf b = 0 := by
  unfold Shared.joined at h
  rw [List.all_eq_true] at h
  have hnil : ∀ t ∈ sh.threads, t.todo = [] := by
    intro t ht
    simpa [List.isEmpty_iff] using h t ht
  refine ⟨?_, ?_⟩
  · unfold Shared.remaining
    apply List.sum_eq_zero
    intro n hn
    rw [List.mem_map] at hn
    obtain ⟨t, ht, rfl⟩ := hn
    rw [hnil t ht]
    rfl
  · intro b
    unfold Shared.remainingOf
    apply List.sum_eq_zero
    intro n hn
    rw [List.mem_map] at hn
    obtain ⟨t, ht, rfl⟩ := hn
    rw [hnil t ht]
    rfl

theorem runSteps_append (a b : List Nat) (sh : Shared) :
    runSteps (a ++ b) sh = runSteps b (runSteps a sh) := by
  simp [runSteps, List.foldl_append]

/-- A whole attempt is one to four consecutive steps of the same goroutine. -/
theorem wholeAttempt_steps (k : Nat) (sh : Shared) :
    ∃ n : Nat, wholeAttempt k sh = runSteps (List.replicate n k) sh := by
  unfold wholeAttempt
  by_cases m1 : midAttempt k (microStep k sh) = true
  · by_cases m2 : midAttempt k (microStep k (microStep k sh)) = true
    · by_cases m3 : midAttempt k (microStep k (microStep k (microStep k sh))) = true
      · exact ⟨4, by simp [m1, m2, m3, runSteps, List.replicate]⟩
      · exact ⟨3, by simp [m1, m2, m3, runSteps, List.replicate]⟩
    · exact ⟨2, by simp [m1, m2, runSteps, List.replicate]⟩
  · exact ⟨1, by simp [m1, runSteps, List.replicate]⟩

/-- An interleaving of whole attempts is one of the interleavings of single steps. -/
theorem runAttempts_steps (sched : List Nat) :
    ∀ sh : Shared, ∃ steps : List Nat, runAttempts sched sh = runSteps steps sh := by
  induction sched with
  | nil => intro sh; exact ⟨[], rfl⟩
  | cons k rest ih =>
      intro sh
      obtain ⟨n, hn⟩ := wholeAttempt_steps k sh
      obtain ⟨steps, hs⟩ := ih (wholeAttempt k sh)
      refine ⟨List.replicate n k ++ steps, ?_⟩
      rw [runSteps_append, ← hn, ← hs]
      rfl

/-! ## C2 -/

/-- C2, as the code has it: one exchange handled by `pinger`: (a) with a transport error
`errorCount` grows by one, `successCount` and the histogram are unchanged; (b) the same for
a response whose Rcode is not `RcodeSuccess`; (c) for a response with `RcodeSuccess`,
`successCount` grows by one, `errorCount` is unchanged and the one sample
`1000 * rtt.Seconds()` is recorded. Hence in every run from the initial state in which the
attempts of the pingers are taken in a sequential order, one whole attempt after the other,
the histogram holds `successCount` samples; also at the grain of single reads and writes,
when each goroutine makes its whole attempts with no step of another in between, the
histogram's count equals `successCount`, which is the number of successful exchanges made
so far. -/
theorem C2_attempt_classification (lib : Lib) (fl : Flags) (ns : String) (x : Exchange)
    (st : Stats) :
    (∀ e, x.err = some e →
      (attempt lib fl ns x st).errorCount = st.errorCount + 1 ∧
      (attempt lib fl ns x st).successCount = st.successCount ∧
      (attempt lib fl ns x st).statHistogram = st.statHistogram) ∧
    (x.err = none → x.res.Rcode ≠ lib.RcodeSuccess →
      (attempt lib fl ns x st).errorCount = st.errorCount + 1 ∧
      (attempt lib fl ns x st).successCount = st.successCount ∧
      (attempt lib fl ns x st).statHistogram = st.statHistogram) ∧
    (x.err = none → x.res.Rcode = lib.RcodeSuccess →
      (attempt lib fl ns x st).successCount = st.successCount + 1 ∧
      (attempt lib fl ns x st).errorCount = st.errorCount ∧
      (attempt lib fl ns x st).statHistogram
        = st.statHistogram ++ [F64.mul (F64.fin 1000) (lib.Seconds x.rtt)]) ∧
    (∀ (workers : List String) (sched : List (Nat × Event)),
      ((System.run lib fl sched (System.start workers Stats.init)).st.statHistogram.length : Int)
        = (System.run lib fl sched (System.start workers Stats.init)).st.successCount) ∧
    (∀ (work : List (List Exchange)) (sched : List Nat),
      (runAttempts sched (Shared.start lib work)).records
        = (runAttempts sched (Shared.start lib work)).successCount ∧
      (runAttempts sched (Shared.start lib work)).successCount
          + ((runAttempts sched (Shared.start lib work)).remainingOf true : Int)
        = ((work.map (fun xs =>
            (xs.filter (fun x =>
              (x.err.isNone && decide (x.res.Rcode = lib.RcodeSuccess)) == true)).length)).sum
            : Nat)) := by
  refine ⟨?_, ?_, ?_, ?_, ?_⟩
  · intro e h
    rw [attempt_of_err lib fl ns x st e h]; exact ⟨rfl, rfl, rfl⟩
  · intro h hr
    rw [attempt_of_badRcode lib fl ns x st h hr]; exact ⟨rfl, rfl, rfl⟩
  · intro h hr
    rw [attempt_of_success lib fl ns x st h hr]; exact ⟨rfl, rfl, rfl⟩
  · intro workers sched
    exact (System.run_consistent lib fl sched _ (System.start_consistent workers)).2.1
  · intro work sched
    have h := runAttempts_settled sched _ (outcomesOf lib true work)
      (outcomesOf lib false work) _ (start_settled lib work)
    exact ⟨h.2.2.2.2, h.2.2.1⟩

/-- C2 at sample values: a timeout, a SERVFAIL answer and a good answer. -/
theorem C2_attempt_classification_witness :
    (attempt sampleLib sampleFlags "10.0.0.1:53" timeoutExchange Stats.init).errorCount = 1 ∧
    (attempt sampleLib sampleFlags "10.0.0.1:53" servfailExchange Stats.init).statHistogram = [] ∧
    (attempt sampleLib sampleFlags "10.0.0.1:53" okExchange Stats.init).statHistogram
      = [F64.mul (F64.fin 1000) (sampleLib.Seconds 3000000)] :=
  ⟨((C2_attempt_classification sampleLib sampleFlags "10.0.0.1:53" timeoutExchange
        Stats.init).1 "i/o timeout" rfl).1,
   ((C2_attempt_classification sampleLib sampleFlags "10.0.0.1:53" servfailExchange
        Stats.init).2.1 rfl (by decide)).2.2,
   ((C2_attempt_classification sampleLib sampleFlags "10.0.0.1:53" okExchange
        Stats.init).2.2.1 rfl rfl).2.2⟩

/-- C2 as stated fails in its last sentence: two goroutines with one successful exchange
each. Each makes its `Record` in turn, so the histogram counts two samples; then both read
`successCount = 0` before either writes, and both write `1`. Both have finished with two
samples in the histogram and `successCount = 1`. -/
theorem C2_counterexample_count_differs :
    (runSteps [0, 0, 1, 1, 0, 1, 0, 1] (Shared.start sampleLib [[okExchange], [okExchange]])
      ).joined = true ∧
    (runSteps [0, 0, 1, 1, 0, 1, 0, 1] (Shared.start sampleLib [[okExchange], [okExchange]])
      ).records = 2 ∧
    (runSteps [0, 0, 1, 1, 0, 1, 0, 1] (Shared.start sampleLib [[okExchange], [okExchange]])
      ).successCount = 1 ∧
    (runSteps [0, 0, 1, 1, 0, 1, 0, 1] (Shared.start sampleLib [[okExchange], [okExchange]])
      ).records
      ≠ (runSteps [0, 0, 1, 1, 0, 1, 0, 1] (Shared.start sampleLib [[okExchange], [okExchange]])
      ).successCount := by
  decide

/-! ## C9 -/

/-- C9, as the code has it: `errorCount++` and `successCount++` are plain increments with
no lock and no atomic operation, and `Record` is called with no lock. For `N` goroutines
with `M` attempts each, and every interleaving in which the attempts do not overlap (each
goroutine makes a whole attempt with no step of another goroutine in between), once all
goroutines have finished: `errorCount + successCount = N * M`; `successCount` is the
number of exchanges, over all goroutines, that returned no error and `RcodeSuccess`;
`errorCount` is the number of the others; and the histogram's count is the number of
successes. Such an interleaving is one of the interleavings of single steps. -/
theorem C9_sum_when_attempts_do_not_overlap (lib : Lib) (work : List (List Exchange))
    (m : Nat) (hm : ∀ xs ∈ work, xs.length = m) (sched : List Nat)
    (hj : (runAttempts sched (Shared.start lib work)).joined = true) :
    (runAttempts sched (Shared.start lib work)).errorCount
        + (runAttempts sched (Shared.start lib work)).successCount
      = ((work.length * m : Nat) : Int) ∧
    (runAttempts sched (Shared.start lib work)).successCount
      = ((work.map (fun xs =>
          (xs.filter (fun x =>
            (x.err.isNone && decide (x.res.Rcode = lib.RcodeSuccess)) == true)).length)).sum
          : Nat) ∧
    (runAttempts sched (Shared.start lib work)).errorCount
      = ((work.map (fun xs =>
          (xs.filter (fun x =>
            (x.err.isNone && decide (x.res.Rcode = lib.RcodeSuccess)) == false)).length)).sum
          : Nat) ∧
    (runAttempts sched (Shared.start lib work)).records
      = ((work.map (fun xs =>
          (xs.filter (fun x =>
            (x.err.isNone && decide (x.res.Rcode = lib.RcodeSuccess)) == true)).length)).sum
          : Nat) ∧
    (∃ steps : List Nat,
      runAttempts sched (Shared.start lib work) = runSteps steps (Shared.start lib work)) := by
  have h := runAttempts_settled sched _ (outcomesOf lib true work)
    (outcomesOf lib false work) _ (start_settled lib work)
  obtain ⟨_, hsum, hok, hfail, hrec⟩ := h
  obtain ⟨j0, jb⟩ := joined_remaining _ hj
  rw [j0, start_remaining lib m work hm] at hsum
  rw [jb true] at hok
  rw [jb false] at hfail
  simp only [Nat.cast_zero, add_zero] at hsum hok hfail
  refine ⟨hsum, hok, hfail, ?_, runAttempts_steps sched _⟩
  rw [hrec]
  exact hok

/-- C9 at sample values: two goroutines with two attempts each, taking turns; two of the
four exchanges succeed. -/
theorem C9_sum_when_attempts_do_not_overlap_witness :
    (runAttempts [0, 1, 0, 1]
        (Shared.start sampleLib [[timeoutExchange, okExchange], [okExchange, servfailExchange]])
      ).errorCount = 2 ∧
    (runAttempts [0, 1, 0, 1]
        (Shared.start sampleLib [[timeoutExchange, okExchange], [okExchange, servfailExchange]])
      ).successCount = 2 ∧
    (runAttempts [0, 1, 0, 1]
        (Shared.start sampleLib [[timeoutExchange, okExchange], [okExchange, servfailExchange]])
      ).records = 2 := by
  have h := C9_sum_when_attempts_do_not_overlap sampleLib
    [[timeoutExchange, okExchange], [okExchange, servfailExchange]] 2 (by decide) [0, 1, 0, 1]
    (by decide)
  refine ⟨?_, ?_, ?_⟩
  · rw [h.2.2.1]; decide
  · rw [h.2.1]; decide
  · rw [h.2.2.2.1]; decide

/-- C9 as stated fails: two goroutines with one failed attempt each. Both read
`errorCount = 0` before either writes, both write `1`; both have finished, and
`errorCount + successCount` is `1`, not `2 * 1`. -/
theorem C9_counterexample_lost_update :
    (runSteps [0, 1, 0, 1] (Shared.start sampleLib [[timeoutExchange], [timeoutExchange]])
      ).joined = true ∧
    (runSteps [0, 1, 0, 1] (Shared.start sampleLib [[timeoutExchange], [timeoutExchange]])
      ).errorCount
      + (runSteps [0, 1, 0, 1] (Shared.start sampleLib [[timeoutExchange], [timeoutExchange]])
      ).successCount = 1 ∧
    (runSteps [0, 1, 0, 1] (Shared.start sampleLib [[timeoutExchange], [timeoutExchange]])
      ).errorCount
      + (runSteps [0, 1, 0, 1] (Shared.start sampleLib [[timeoutExchange], [timeoutExchange]])
      ).successCount ≠ ((2 * 1 : Nat) : Int) := by
  decide

/-! ## Lemmas on the shutdown signal -/

theorem Coord.run_append (a b : List Sig) (c : Coord) :
    Coord.run (a ++ b) c = Coord.run b (Coord.run a c) := by
  simp [Coord.run, List.foldl_append]

theorem Coord.run_cons (s : Sig) (rest : List Sig) (c : Coord) :
    Coord.run (s :: rest) c = Coord.run rest (c.step s) := rfl

theorem Coord.init_sound : Coord.init.Sound := by
  simp [Coord.Sound, Coord.init]

theorem Coord.step_sound (c : Coord) (s : Sig) (h : c.Sound) : (c.step s).Sound := by
  obtain ⟨hp, hb, hl, hn⟩ := h
  cases s with
  | interrupt =>
      unfold Coord.step
      by_cases hlt : c.buffered < 1
      · simp only [hlt, if_true]
        exact ⟨hp, by simp only; omega, hl, hn⟩
      · simp only [hlt, if_false]
        exact ⟨hp, hb, hl, hn⟩
  | listener =>
      unfold Coord.step
      by_cases hf : (c.listening && decide (0 < c.buffered)) = true
      · simp only [hf, if_true]
        have hlis : c.listening = true := by
          cases hc : c.listening <;> simp [hc] at hf ⊢
        have hd := (hl hlis).1
        have hcl := (hl hlis).2
        refine ⟨by simp [hp, hd], by simp only; omega, by simp, ?_⟩
        intro _
        exact ⟨rfl, by simp [hcl]⟩
      · simp only [hf]
        exact ⟨hp, hb, hl, hn⟩

theorem Coord.run_sound (sigs : List Sig) : ∀ c : Coord, c.Sound → (Coord.run sigs c).Sound := by
  induction sigs with
  | nil => intro c h; exact h
  | cons s rest ih => intro c h; exact ih _ (Coord.step_sound c s h)

/-- Once the goroutine has ended nothing moves the shutdown signal. -/
theorem Coord.run_ended (sigs : List Sig) :
    ∀ c : Coord, c.listening = false →
      (Coord.run sigs c).listening = false ∧ (Coord.run sigs c).signal = c.signal := by
  induction sigs with
  | nil => intro c h; exact ⟨h, rfl⟩
  | cons s rest ih =>
      intro c h
      have hs : (c.step s).listening = false ∧ (c.step s).signal = c.signal := by
        cases s with
        | interrupt =>
            unfold Coord.step
            by_cases hlt : c.buffered < 1
            · rw [if_pos hlt]; exact ⟨h, rfl⟩
            · rw [if_neg hlt]; exact ⟨h, rfl⟩
        | listener =>
            unfold Coord.step
            have hf : ¬ ((c.listening && decide (0 < c.buffered)) = true) := by simp [h]
            rw [if_neg hf]
            exact ⟨h, rfl⟩
      have := ih (c.step s) hs.1
      rw [Coord.run_cons]
      exact ⟨this.1, this.2.trans hs.2⟩

/-- With an interrupt buffered and the goroutine still waiting, `done` gets closed by the
next run of the goroutine. -/
theorem Coord.run_pending (sigs : List Sig) :
    ∀ c : Coord, c.listening = true → 1 ≤ c.buffered → c.doneClosed = false →
      (Coord.run sigs c).doneClosed = sigs.contains Sig.listener := by
  induction sigs with
  | nil => intro c _ _ hd; simpa [Coord.run] using hd
  | cons s rest ih =>
      intro c hl hb hd
      rw [Coord.run_cons]
      cases s with
      | interrupt =>
          have hs : c.step Sig.interrupt = c := by
            have : ¬ c.buffered < 1 := by omega
            simp [Coord.step, this]
          rw [hs, ih c hl hb hd]
          simp
      | listener =>
          have hpos : 0 < c.buffered := by omega
          have hs : (c.step Sig.listener).listening = false ∧
              (c.step Sig.listener).doneClosed = true := by
            simp [Coord.step, hl, hpos]
          have h2 := (Coord.run_ended rest _ hs.1).2
          have h3 : (Coord.run rest (c.step Sig.listener)).doneClosed
              = (c.step Sig.listener).doneClosed := congrArg (fun p => p.1) h2
          rw [h3, hs.2]
          simp

/-- Before any interrupt: `done` gets closed exactly by a run of the goroutine that comes
after an interrupt. -/
theorem Coord.run_idle (sigs : List Sig) :
    ∀ c : Coord, c.listening = true → c.buffered = 0 → c.doneClosed = false →
      (Coord.run sigs c).doneClosed = listenerRanAfterInterrupt sigs := by
  induction sigs with
  | nil => intro c _ _ hd; simpa [Coord.run, listenerRanAfterInterrupt] using hd
  | cons s rest ih =>
      intro c hl hb hd
      rw [Coord.run_cons]
      cases s with
      | interrupt =>
          have hs : c.step Sig.interrupt = { c with buffered := 1 } := by
            simp [Coord.step, hb]
          rw [hs, Coord.run_pending rest { c with buffered := 1 } hl (by simp) hd]
          rfl
      | listener =>
          have hs : c.step Sig.listener = c := by
            simp [Coord.step, hl, hb]
          rw [hs, ih c hl hb hd]
          rfl

theorem Coord.run_agree (sigs : List Sig) :
    ∀ a b : Coord, a.Agree b →
      (Coord.run sigs a).Agree (Coord.run (sigs.filter (fun s => s != Sig.interrupt)) b) := by
  induction sigs with
  | nil => intro a b h; exact h
  | cons s rest ih =>
      intro a b h
      obtain ⟨hsig, hlis, hbuf⟩ := h
      cases s with
      | interrupt =>
          have hf : (Sig.interrupt :: rest).filter (fun s => s != Sig.interrupt)
              = rest.filter (fun s => s != Sig.interrupt) := by simp
          rw [hf, Coord.run_cons]
          apply ih
          unfold Coord.step
          by_cases hlt : a.buffered < 1
          · simp only [hlt, if_true]
            refine ⟨hsig, hlis, ?_⟩
            intro hl
            have := (hbuf hl).2
            omega
          · simp only [hlt, if_false]
            exact ⟨hsig, hlis, hbuf⟩
      | listener =>
          have hf : (Sig.listener :: rest).filter (fun s => s != Sig.interrupt)
              = Sig.listener :: rest.filter (fun s => s != Sig.interrupt) := by
            simp
          rw [hf, Coord.run_cons, Coord.run_cons]
          apply ih
          simp only [Coord.signal, Prod.mk.injEq] at hsig
          obtain ⟨hd, hc, hp⟩ := hsig
          unfold Coord.step
          cases hl : a.listening with
          | false =>
              have hlb : b.listening = false := by rw [← hlis, hl]
              simp only [hlb, Bool.false_and, Bool.false_eq_true, if_false]
              refine ⟨by simp [Coord.signal, hd, hc, hp], by rw [hl, hlb], ?_⟩
              intro h1
              rw [hl] at h1
              cases h1
          | true =>
              have hlb : b.listening = true := by rw [← hlis, hl]
              obtain ⟨hbe, hb1⟩ := hbuf hl
              have ha0 : 0 < a.buffered := by omega
              have hb0 : 0 < b.buffered := by omega
              simp only [hlb, ha0, hb0, decide_True, Bool.and_self, if_true]
              refine ⟨by simp [Coord.signal, hd, hc, hp], rfl, ?_⟩
              intro h1
              cases h1

/-- The interrupts after the first one change neither the shutdown signal nor the
goroutine. -/
theorem Coord.run_firstInterruptOnly (sigs : List Sig) :
    ∀ c : Coord,
      (Coord.run sigs c).signal = (Coord.run (firstInterruptOnly sigs) c).signal ∧
      (Coord.run sigs c).listening = (Coord.run (firstInterruptOnly sigs) c).listening := by
  induction sigs with
  | nil => intro c; exact ⟨rfl, rfl⟩
  | cons s rest ih =>
      intro c
      cases s with
      | interrupt =>
          simp only [firstInterruptOnly, Coord.run_cons]
          have hag : (c.step Sig.interrupt).Agree (c.step Sig.interrupt) := by
            refine ⟨rfl, rfl, fun _ => ⟨rfl, ?_⟩⟩
            show 1 ≤ (if c.buffered < 1 then { c with buffered := c.buffered + 1 } else c).buffered
            by_cases hlt : c.buffered < 1
            · rw [if_pos hlt]; simp
            · rw [if_neg hlt]; omega
          have h := Coord.run_agree rest _ _ hag
          exact ⟨h.1, h.2.1⟩
      | listener =>
          simp only [firstInterruptOnly, Coord.run_cons]
          exact ih _

/-! ## C10 -/

/-- C10: shutdown signalling is one-shot and idempotent. For every sequence of interrupts
delivered to the process and of runs of the goroutine that waits on `interrupt`, in any
order: `close(done)` runs at most once and never panics; `done` is closed exactly when the
goroutine has run after an interrupt, so on the first interrupt; once closed it stays
closed whatever follows; the interrupts after the first change nothing of the shutdown
signal (closed or not, number of `close` calls, panic) nor of the goroutine; and after a
first interrupt followed by anything and a run of the goroutine the signal is as after a
single interrupt: closed, by one `close`, without panic. -/
theorem C10_shutdown_one_shot (sigs more : List Sig) :
    (Coord.run sigs Coord.init).closes ≤ 1 ∧
    (Coord.run sigs Coord.init).panicked = false ∧
    (Coord.run sigs Coord.init).doneClosed = listenerRanAfterInterrupt sigs ∧
    (Coord.run sigs Coord.init).closes
      = (if (Coord.run sigs Coord.init).doneClosed = true then 1 else 0) ∧
    ((Coord.run sigs Coord.init).doneClosed = true →
      (Coord.run (sigs ++ more) Coord.init).doneClosed = true) ∧
    (Coord.run sigs Coord.init).signal
      = (Coord.run (firstInterruptOnly sigs) Coord.init).signal ∧
    (Coord.run sigs Coord.init).listening
      = (Coord.run (firstInterruptOnly sigs) Coord.init).listening ∧
    (Coord.run (Sig.interrupt :: (more ++ [Sig.listener])) Coord.init).signal
      = (Coord.run [Sig.interrupt, Sig.listener] Coord.init).signal := by
  have hs := Coord.run_sound sigs _ Coord.init_sound
  obtain ⟨hp, _, hl, hn⟩ := hs
  have hidle : ∀ l : List Sig,
      (Coord.run l Coord.init).doneClosed = listenerRanAfterInterrupt l :=
    fun l => Coord.run_idle l Coord.init rfl rfl rfl
  have hcl : (Coord.run sigs Coord.init).closes
      = (if (Coord.run sigs Coord.init).doneClosed = true then 1 else 0) := by
    cases hlis : (Coord.run sigs Coord.init).listening with
    | true => simp [(hl hlis).1, (hl hlis).2]
    | false => simp [(hn hlis).1, (hn hlis).2]
  refine ⟨?_, hp, hidle sigs, hcl, ?_, (Coord.run_firstInterruptOnly sigs _).1,
    (Coord.run_firstInterruptOnly sigs _).2, ?_⟩
  · rw [hcl]; split <;> omega
  · intro hd
    have hlis : (Coord.run sigs Coord.init).listening = false := by
      cases hlis : (Coord.run sigs Coord.init).listening with
      | true => rw [(hl hlis).1] at hd; cases hd
      | false => rfl
    rw [Coord.run_append]
    have h2 := (Coord.run_ended more _ hlis).2
    have h3 : (Coord.run more (Coord.run sigs Coord.init)).doneClosed
        = (Coord.run sigs Coord.init).doneClosed := congrArg (fun p => p.1) h2
    rw [h3, hd]
  · have hs2 := Coord.run_sound (Sig.interrupt :: (more ++ [Sig.listener])) _ Coord.init_sound
    obtain ⟨hp2, _, hl2, hn2⟩ := hs2
    have hd2 : (Coord.run (Sig.interrupt :: (more ++ [Sig.listener])) Coord.init).doneClosed
        = true := by
      rw [hidle]; simp [listenerRanAfterInterrupt]
    have hlis2 : (Coord.run (Sig.interrupt :: (more ++ [Sig.listener])) Coord.init).listening
        = false := by
      cases hlis : (Coord.run (Sig.interrupt :: (more ++ [Sig.listener])) Coord.init).listening with
      | true => rw [(hl2 hlis).1] at hd2; cases hd2
      | false => rfl
    have hsig : (Coord.run [Sig.interrupt, Sig.listener] Coord.init).signal = (true, 1, false) := by
      decide
    rw [hsig]
    simp only [Coord.signal, hd2, (hn2 hlis2).2, hp2]

/-- C10 at sample values: closed after one interrupt, still closed after two more. -/
theorem C10_shutdown_one_shot_witness :
    (Coord.run ([Sig.interrupt, Sig.listener] ++ [Sig.interrupt, Sig.interrupt, Sig.listener])
      Coord.init).doneClosed = true :=
  (C10_shutdown_one_shot [Sig.interrupt, Sig.listener]
    [Sig.interrupt, Sig.interrupt, Sig.listener]).2.2.2.2.1 (by decide)

end DnsChecker
